import Mathlib

/-!
Verification development for the crypto market alert bot (`src/main.py`).
The Python source is shallowly embedded: prices, volumes and percentages
become exact rationals (`ℚ`), timestamps become `Int`, Python dicts become
association lists, Python `None` becomes `Option`, and the single big
`run_once` procedure becomes a pure function from (state, snapshot, now)
to (state, admitted alerts).
-/

set_option maxRecDepth 1000000

namespace Bot

/-! ## Data model

A history sample, as appended by `run_once`:
`{"ts": now, "p": float(price), "v": float(vol), "m": float(mcap)}`.
Every sample produced by the program carries `ts` and `p`; the volume field
is always read through `.get("v")` (which may be absent in persisted data),
so it is an `Option`. -/

structure Point where
  ts : Int
  p : ℚ
  v : Option ℚ
  m : ℚ
deriving Repr, DecidableEq

/-- `history` dict: asset id to list of samples (association list,
insertion-ordered like a Python dict). -/
abbrev History := List (String × List Point)

/-- `history.get(cid, [])` -/
def historyGet (h : History) (cid : String) : List Point :=
  (h.lookup cid).getD []

/-- Python dict assignment `d[k] = v`: replace in place if the key exists,
else append a new key at the end. -/
def setKV {α : Type} : List (String × α) → String → α → List (String × α)
  | [], k, v => [(k, v)]
  | (k', v') :: rest, k, v =>
    if k' = k then (k, v) :: rest else (k', v') :: setKV rest k v

/-! ## CONFIG constants (src/main.py lines 10-100) -/

def TOP_N : Int := 250
def HISTORY_SECONDS : Int := 8 * 24 * 60 * 60

def BASE_DAYS_T0_MIN : Nat := 4
def BASE_DAYS_T0_MAX : Nat := 6
def BASE_MAX_RANGE_PCT_T0 : ℚ := 8/100
def MAX_DRAWDOWN_IN_BASE_T0 : ℚ := 8/100
def RS_BASE_MIN_T0 : ℚ := 0
def VOL_STABILITY_MIN_T0 : ℚ := 85/100
def CONTRACTION_IMPROVEMENT_T0 : ℚ := 10/100
def MIN_POINTS_T0 : Nat := 30
def MIN_VOL_T0 : ℚ := 10000000
def MIN_MARKET_CAP_T0 : ℚ := 50000000
def COOLDOWN_T0 : Int := 48 * 60 * 60

def BASE_DAYS_MIN : Nat := 3
def BASE_DAYS_MAX : Nat := 5
def BASE_MAX_RANGE_PCT : ℚ := 10/100
def CLEARANCE_ABOVE_BASE_HIGH : ℚ := 3/100
def MAX_STRETCH_FROM_BASE_AVG : ℚ := 25/100
def LIFT_6H_PCT : ℚ := 4
def LIFT_12H_PCT : ℚ := 13/2
def PERSIST_WINDOW_MIN : Int := 120
def persistMinGreen : ℚ := 70/100
def MA_FAST_STEPS : Nat := 6
def MA_SLOW_STEPS : Nat := 12
def MIN_VOL_T1 : ℚ := 20000000
def MIN_MARKET_CAP_T1 : ℚ := 50000000
def MIN_OUTPERF_T1 : ℚ := 4
def volRatioT1 : ℚ := 3/2
def volSpikeT1 : ℚ := 3/2
def COOLDOWN_T1 : Int := 24 * 60 * 60

def MIN_24H_MOVE_T2 : ℚ := 8
def MIN_OUTPERF_T2 : ℚ := 4
def MIN_VOL_T2 : ℚ := 20000000
def MIN_RANK_T2 : Int := 200
def MIN_1H_MOVE_T2 : ℚ := 2/10
def DUMP_GUARD_1H : ℚ := -2
def COOLDOWN_T2 : Int := 6 * 60 * 60

def MIN_24H_MOVE_T3 : ℚ := 15
def MIN_1H_MOVE_T3 : ℚ := 1
def MIN_OUTPERF_T3 : ℚ := 8
def MIN_VOL_T3 : ℚ := 50000000
def MIN_RANK_T3 : Int := 200
def COOLDOWN_T3 : Int := 3 * 60 * 60

def BTC_TREND_WINDOW : Int := 24 * 60 * 60
def MIN_BTC_TREND : ℚ := -5
def MAX_ALERTS_PER_HOUR : Nat := 5

/-! ## UTIL (src/main.py lines 105-228) -/

/-- `compute_return_pct` -/
def compute_return_pct (from_price to_price : Option ℚ) : Option ℚ :=
  match from_price, to_price with
  | some f, some t => if f ≤ 0 then none else some ((t / f - 1) * 100)
  | _, _ => none

/-- Python `min` over a nonempty list (callers guard nonemptiness). -/
def listMin : List ℚ → ℚ
  | [] => 0
  | [x] => x
  | x :: y :: rest => min x (listMin (y :: rest))

/-- Python `max` over a nonempty list (callers guard nonemptiness). -/
def listMax : List ℚ → ℚ
  | [] => 0
  | [x] => x
  | x :: y :: rest => max x (listMax (y :: rest))

/-- Python `sum`. -/
def listSum : List ℚ → ℚ
  | [] => 0
  | x :: rest => x + listSum rest

/-- `median(vals)`: the input list is already the list of non-`None`
floats (callers of the embedding pass concrete rational lists); sorts
ascending and takes the middle (or the mean of the two middle values). -/
def median (vals : List ℚ) : Option ℚ :=
  match vals with
  | [] => none
  | _ =>
    let v := vals.insertionSort (· ≤ ·)
    let n := v.length
    let mid := n / 2
    if n % 2 = 1 then some (v.getD mid 0)
    else some ((1/2) * (v.getD (mid - 1) 0 + v.getD mid 0))

/-- `clamp_history(history, cutoff)`: keep samples with `ts >= cutoff`,
drop assets whose sequence becomes empty. -/
def clamp_history (history : History) (cutoff : Int) : History :=
  history.filterMap (fun e =>
    if (e.2.filter (fun p => cutoff ≤ p.ts)).isEmpty then none
    else some (e.1, e.2.filter (fun p => cutoff ≤ p.ts)))

/-- `get_recent_points(history, coin_id, window_seconds, now)` -/
def get_recent_points (history : History) (coin_id : String)
    (window_seconds : Int) (now : Int) : List Point :=
  let pts := historyGet history coin_id
  ((pts.filter (fun p => now - window_seconds ≤ p.ts)).insertionSort
    (fun a b => a.ts ≤ b.ts))

/-- `green_step_ratio(pts)` -/
def green_step_ratio (pts : List Point) : ℚ :=
  let prices := pts.map (·.p)
  if prices.length < 2 then 0
  else
    let green := (prices.zip prices.tail).countP (fun ab => decide (ab.1 ≤ ab.2))
    (green : ℚ) / ((prices.length - 1 : ℕ) : ℚ)

/-- `moving_average(values)` -/
def moving_average (values : List ℚ) : Option ℚ :=
  match values with
  | [] => none
  | _ => some (listSum values / (values.length : ℚ))

/-- `price_at_or_before(sorted_pts, ts_cut)`: last sample with
`ts <= ts_cut` (reverse scan). -/
def price_at_or_before (sorted_pts : List Point) (ts_cut : Int) : Option ℚ :=
  (sorted_pts.reverse.find? (fun p => decide (p.ts ≤ ts_cut))).map (·.p)

/-! ## DATA FETCH (lines 233-253)

One provider record (`coins/markets` entry); every field read through
`.get` in the source is an `Option` here. -/

structure Market where
  id : Option String
  name : Option String
  symbol : Option String
  market_cap_rank : Option Int
  current_price : Option ℚ
  total_volume : Option ℚ
  market_cap : Option ℚ
  c24 : Option ℚ
  c1h : Option ℚ
deriving Repr, DecidableEq

/-- `extract_btc_24h(markets)`: first record with id `"bitcoin"` and a
non-null 24h-change field wins; otherwise `0.0`. -/
def extract_btc_24h : List Market → ℚ
  | [] => 0
  | c :: rest =>
    if c.id = some "bitcoin" then
      match c.c24 with
      | some v => v
      | none => extract_btc_24h rest
    else extract_btc_24h rest

/-! ## SCORING (lines 258-344) -/

/-- Tier 1 candidate dict (the mapping built at lines 542-552). -/
structure T1Cand where
  base_days : Nat
  base_range_pct : ℚ
  r6 : ℚ
  r12 : ℚ
  outperf : ℚ
  vol_ratio : Option ℚ
  spike_ratio : Option ℚ
  green_ratio : ℚ
  stretch_pct : ℚ
deriving Repr, DecidableEq

/-- Tier 0 candidate dict (lines 426-432). -/
structure T0Cand where
  base_days : Nat
  base_range_pct : ℚ
  dd_pct : ℚ
  rs_base : ℚ
  contracting : Bool
deriving Repr, DecidableEq

/-- Tier 2 candidate dict (line 593). -/
structure T2Cand where
  outperf : ℚ
deriving Repr, DecidableEq

/-- `score_tier1(t1)`; `t1.get("vol_ratio", 0) or 0` maps `None` to `0`. -/
def score_tier1 (t1 : T1Cand) : ℚ :=
  let s1 : ℚ := if t1.base_range_pct < 8 then 3 else if t1.base_range_pct < 10 then 2 else 1
  let vr := t1.vol_ratio.getD 0
  let s2 : ℚ := if 2 < vr then 3 else if 3/2 < vr then 2 else if 13/10 < vr then 1 else 0
  let sr := t1.spike_ratio.getD 0
  let s3 : ℚ := if 2 < sr then 3 else if 3/2 < sr then 2 else if 13/10 < sr then 1 else 0
  let s4 : ℚ := if 8 < t1.outperf then 2 else if 6 < t1.outperf then 1 else 0
  let s5 : ℚ := if 5 ≤ t1.base_days then 3/2 else if 4 ≤ t1.base_days then 1 else 0
  s1 + s2 + s3 + s4 + s5

/-- `confidence_label(score)` -/
def confidence_label (score : ℚ) : String :=
  if 8 ≤ score then "🔥 VERY HIGH"
  else if 6 ≤ score then "HIGH"
  else if 4 ≤ score then "MED"
  else "LOW"

/-- `score_tier0(t0)` -/
def score_tier0 (t0 : T0Cand) : ℚ :=
  let s1 : ℚ := if t0.base_range_pct < 5 then 3 else if t0.base_range_pct < 7 then 2 else 1
  let s2 : ℚ := if 5 < t0.rs_base then 2 else if 2 < t0.rs_base then 1 else 0
  let s3 : ℚ := if t0.contracting then 1 else 0
  let s4 : ℚ := if 6 ≤ t0.base_days then 1 else if 5 ≤ t0.base_days then 1/2 else 0
  s1 + s2 + s3 + s4

/-! ## DETECTION (lines 349-607) -/

/-- The volatility-contraction proxy of `tier0_quiet_accum`
(lines 399-413): `none` when one of its `continue` guards fires,
otherwise the `contracting` flag. -/
def tier0_contraction_phase (prices : List ℚ) : Option Bool :=
  let mid := prices.length / 2
  let early := prices.take mid
  let late := prices.drop mid
  if early.length < 10 ∨ late.length < 10 then none else
  let early_avg := listSum early / (early.length : ℚ)
  let late_avg := listSum late / (late.length : ℚ)
  if early_avg ≤ 0 ∨ late_avg ≤ 0 then none else
  let early_range := (listMax early - listMin early) / early_avg
  let late_range := (listMax late - listMin late) / late_avg
  some (decide (late_range ≤ early_range * (1 - CONTRACTION_IMPROVEMENT_T0)))

/-- The list comprehension
`[float(p.get("v", 0)) for p in pts if p.get("v") is not None and float(p.get("v", 0)) > 0]`
(used at line 416 and again at lines 532-535). -/
def posVols (pts : List Point) : List ℚ :=
  pts.filterMap (fun p => match p.v with
    | some v => if 0 < v then some v else none
    | none => none)

/-- The volume-stability proxy of `tier0_quiet_accum` (lines 415-432):
`none` when a `continue` guard fires, otherwise the finished candidate.
`if older_med and recent_med:` is Python truthiness: the stability gate
applies only when both medians are non-`None` and nonzero. -/
def tier0_vol_phase (pts : List Point) (candidate : T0Cand) : Option T0Cand :=
  if (posVols pts).length < MIN_POINTS_T0 then none else
  let vol_mid := (posVols pts).length / 2
  match median ((posVols pts).take vol_mid), median ((posVols pts).drop vol_mid) with
  | some om, some rm =>
    if om ≠ 0 ∧ rm ≠ 0 ∧ rm < om * VOL_STABILITY_MIN_T0 then none
    else some candidate
  | _, _ => some candidate

/-- Lines 395-432: from the relative-strength gate onward, for one
window. -/
def tier0_rs_phase (pts : List Point) (base_days : Nat)
    (base_range dd coin_ret btc_ret : ℚ) : Option T0Cand :=
  let rs := coin_ret - btc_ret
  if rs < RS_BASE_MIN_T0 then none else
  match tier0_contraction_phase (pts.map (·.p)) with
  | none => none
  | some contracting =>
    tier0_vol_phase pts
      { base_days, base_range_pct := base_range * 100, dd_pct := dd * 100,
        rs_base := rs, contracting }

/-- The per-window body of `tier0_quiet_accum` after the sample-count
guard (lines 372-432). -/
def tier0_base_checks (pts btc_pts : List Point) (base_days : Nat) : Option T0Cand :=
  let prices := pts.map (·.p)
  let btc_prices := btc_pts.map (·.p)
  if prices.length < MIN_POINTS_T0 ∨ btc_prices.length < MIN_POINTS_T0 then none else
  let p_low := listMin prices
  let p_high := listMax prices
  let p_avg := listSum prices / (prices.length : ℚ)
  if p_avg ≤ 0 ∨ p_high ≤ 0 then none else
  let base_range := (p_high - p_low) / p_avg
  if BASE_MAX_RANGE_PCT_T0 < base_range then none else
  let dd := (p_high - p_low) / p_high
  if MAX_DRAWDOWN_IN_BASE_T0 < dd then none else
  match compute_return_pct prices.head? prices.getLast?,
        compute_return_pct btc_prices.head? btc_prices.getLast? with
  | some coin_ret, some btc_ret =>
    tier0_rs_phase pts base_days base_range dd coin_ret btc_ret
  | _, _ => none

/-- One iteration of the `for base_days in range(...)` loop of
`tier0_quiet_accum` (lines 364-441). -/
def tier0_try (history : History) (coin_id : String) (now : Int)
    (btc_id : String) (base_days : Nat) : Option T0Cand :=
  let w : Int := (base_days : Int) * 24 * 60 * 60
  let pts := get_recent_points history coin_id w now
  let btc_pts := get_recent_points history btc_id w now
  if pts.length < MIN_POINTS_T0 ∨ btc_pts.length < MIN_POINTS_T0 then none
  else tier0_base_checks pts btc_pts base_days

/-- The `best`-update of lines 434-441: prefer the tighter base, break a
tie toward the longer base. -/
def pickT0 (best cand : T0Cand) : T0Cand :=
  if cand.base_range_pct < best.base_range_pct then cand
  else if cand.base_range_pct = best.base_range_pct ∧ best.base_days < cand.base_days then cand
  else best

/-- The loop-accumulator update of `tier0_quiet_accum`. -/
def tier0_step (history : History) (coin_id : String) (now : Int) (btc_id : String)
    (best : Option T0Cand) (d : Nat) : Option T0Cand :=
  match tier0_try history coin_id now btc_id d with
  | none => best
  | some c =>
    match best with
    | none => some c
    | some b => some (pickT0 b c)

/-- `tier0_quiet_accum(history, coin_id, now, mcap, vol_now, btc_id)` -/
def tier0_quiet_accum (history : History) (coin_id : String) (now : Int)
    (mcap vol_now : ℚ) (btc_id : String := "bitcoin") : Option T0Cand :=
  if mcap < MIN_MARKET_CAP_T0 then none
  else if vol_now < MIN_VOL_T0 then none
  else
    (List.range' BASE_DAYS_T0_MIN (BASE_DAYS_T0_MAX + 1 - BASE_DAYS_T0_MIN)).foldl
      (tier0_step history coin_id now btc_id) none

/-- The multi-timeframe confluence filter of `tier1_base_break`
(lines 509-518): `True` means the `continue` is taken (the window is
rejected).  With fewer than `MA_SLOW_STEPS` prices the slow average is
set to the fast average before the `ma_fast <= ma_slow` test. -/
def maFilterRejects (persist_prices : List ℚ) : Bool :=
  if MA_FAST_STEPS ≤ persist_prices.length then
    let ma_fast := moving_average (persist_prices.drop (persist_prices.length - MA_FAST_STEPS))
    let ma_slow :=
      if MA_SLOW_STEPS ≤ persist_prices.length then
        moving_average (persist_prices.drop (persist_prices.length - MA_SLOW_STEPS))
      else ma_fast
    match ma_fast, ma_slow with
    | some f, some s => decide (f ≤ s)
    | _, _ => false
  else false

/-- The tail of one `tier1_base_break` loop iteration after the lift and
clearance gates (lines 497-552): stretch, persistence, trend confluence,
volume checks and the candidate dict. -/
def tier1_after_break (history : History) (coin_id : String) (now : Int)
    (vol_now outperf : ℚ) (base_days : Nat) (base_pts : List Point)
    (base_range_pct r6 r12 p_now p_avg : ℚ) : Option T1Cand :=
  let stretch := (p_now - p_avg) / p_avg
  if MAX_STRETCH_FROM_BASE_AVG < stretch then none else
  let persist_pts := get_recent_points history coin_id (PERSIST_WINDOW_MIN * 60) now
  if persist_pts.length < 6 then none else
  let g_ratio := green_step_ratio persist_pts
  if g_ratio < persistMinGreen then none else
  let persist_prices := persist_pts.map (·.p)
  if maFilterRejects persist_prices then none else
  let base_vols := base_pts.filterMap (·.v)
  let med_v : Option ℚ :=
    if base_vols.isEmpty then none
    else median (base_vols.filter (fun v => decide (0 < v)))
  -- `if med_v and med_v > 0:` then the `vol_ratio < VOL_RATIO_T1` gate
  let volGate : Option (Option ℚ) :=
    match med_v with
    | some mv =>
      if 0 < mv then
        (if vol_now / mv < volRatioT1 then none else some (some (vol_now / mv)))
      else some none
    | none => some none
  match volGate with
  | none => none
  | some vol_ratio =>
    let last_k := if 6 ≤ persist_pts.length then persist_pts.drop (persist_pts.length - 6) else persist_pts
    let recent_vol := median (posVols last_k)
    -- `if recent_vol and med_v and med_v > 0:` then the spike gate
    let spikeGate : Option (Option ℚ) :=
      match recent_vol, med_v with
      | some rv, some mv =>
        if rv ≠ 0 ∧ 0 < mv then
          (if rv / mv < volSpikeT1 then none else some (some (rv / mv)))
        else some none
      | _, _ => some none
    match spikeGate with
    | none => none
    | some spike_ratio =>
      some { base_days, base_range_pct := base_range_pct * 100, r6, r12, outperf,
             vol_ratio, spike_ratio, green_ratio := g_ratio * 100,
             stretch_pct := stretch * 100 }

/-- One iteration of the `for base_days in range(...)` loop of
`tier1_base_break` (lines 462-560). -/
def tier1_try (history : History) (coin_id : String) (now : Int)
    (vol_now outperf : ℚ) (base_days : Nat) : Option T1Cand :=
  let base_window : Int := (base_days : Int) * 24 * 60 * 60
  let base_pts := get_recent_points history coin_id base_window now
  if base_pts.length < 20 then none else
  let prices := base_pts.map (·.p)
  if prices.length < 20 then none else
  let p_low := listMin prices
  let p_high := listMax prices
  let p_avg := listSum prices / (prices.length : ℚ)
  if p_avg ≤ 0 then none else
  let base_range_pct := (p_high - p_low) / p_avg
  if BASE_MAX_RANGE_PCT < base_range_pct then none else
  let p_now := prices.getLast?.getD 0
  let p_6h := price_at_or_before base_pts (now - 6 * 60 * 60)
  let p_12h := price_at_or_before base_pts (now - 12 * 60 * 60)
  match compute_return_pct p_6h (some p_now), compute_return_pct p_12h (some p_now) with
  | some r6, some r12 =>
    if r6 < LIFT_6H_PCT ∨ r12 < LIFT_12H_PCT then none else
    -- false breakout filter: clear the base high by 3%
    if p_now < p_high * (1 + CLEARANCE_ABOVE_BASE_HIGH) then none else
    tier1_after_break history coin_id now vol_now outperf base_days base_pts
      base_range_pct r6 r12 p_now p_avg
  | _, _ => none

/-- The `best`-update of lines 554-560 (same policy as Tier 0). -/
def pickT1 (best cand : T1Cand) : T1Cand :=
  if cand.base_range_pct < best.base_range_pct then cand
  else if cand.base_range_pct = best.base_range_pct ∧ best.base_days < cand.base_days then cand
  else best

/-- The loop-accumulator update of `tier1_base_break`. -/
def tier1_step (history : History) (coin_id : String) (now : Int)
    (vol_now outperf : ℚ) (best : Option T1Cand) (d : Nat) : Option T1Cand :=
  match tier1_try history coin_id now vol_now outperf d with
  | none => best
  | some c =>
    match best with
    | none => some c
    | some b => some (pickT1 b c)

/-- `tier1_base_break(history, coin_id, now, c24, btc24, vol_now, rank, mcap)` -/
def tier1_base_break (history : History) (coin_id : String) (now : Int)
    (c24 btc24 vol_now : ℚ) (rank : Int) (mcap : ℚ) : Option T1Cand :=
  if TOP_N < rank then none
  else if mcap < MIN_MARKET_CAP_T1 then none
  else
    let outperf := c24 - btc24
    if outperf < MIN_OUTPERF_T1 then none
    else if vol_now < MIN_VOL_T1 then none
    else
      (List.range' BASE_DAYS_MIN (BASE_DAYS_MAX + 1 - BASE_DAYS_MIN)).foldl
        (tier1_step history coin_id now vol_now outperf) none

/-- `tier2_early_build(history, coin_id, now, c24, c1h, btc24, vol_now, rank)` -/
def tier2_early_build (history : History) (coin_id : String) (now : Int)
    (c24 c1h btc24 vol_now : ℚ) (rank : Int) : Option T2Cand :=
  if MIN_RANK_T2 < rank then none else
  let outperf := c24 - btc24
  if c24 < MIN_24H_MOVE_T2 then none else
  if outperf < MIN_OUTPERF_T2 then none else
  if vol_now < MIN_VOL_T2 then none else
  if c1h ≤ DUMP_GUARD_1H then none else
  if c1h < MIN_1H_MOVE_T2 then none else
  let pts_60 := get_recent_points history coin_id (60 * 60) now
  let prices_60 := pts_60.map (·.p)
  if prices_60.length < 5 then none else
  -- last step must be green: `prices_60[-1] < prices_60[-2]` aborts
  if prices_60.getLast?.getD (0 : ℚ) < prices_60.dropLast.getLast?.getD (0 : ℚ) then none
  else some ⟨outperf⟩

/-- `tier3_momentum(c24, c1h, btc24, vol_now, rank)` -/
def tier3_momentum (c24 c1h btc24 vol_now : ℚ) (rank : Int) : Bool :=
  if MIN_RANK_T3 < rank then false
  else
    let outperf := c24 - btc24
    if c24 < MIN_24H_MOVE_T3 then false
    else if c1h < MIN_1H_MOVE_T3 then false
    else if outperf < MIN_OUTPERF_T3 then false
    else if vol_now < MIN_VOL_T3 then false
    else true

/-! ## Number and string rendering

The f-string number formats of the alert messages.  Rounding of the last
decimal digit approximates CPython's float formatting (which rounds the
underlying binary double); no claim depends on the digit values, only on
the characters used. -/

def decDigit (n : Nat) : Char := Char.ofNat (48 + n % 10)

def natDigitsAux : Nat → Nat → List Char
  | 0, _ => []
  | fuel + 1, n =>
    if n < 10 then [decDigit n]
    else natDigitsAux fuel (n / 10) ++ [decDigit (n % 10)]

def natDigits (n : Nat) : List Char := natDigitsAux (n + 1) n

def natStr (n : Nat) : String := ⟨natDigits n⟩

/-- Plain `f"{i}"` rendering of a Python int. -/
def intStr (i : Int) : String :=
  if i < 0 then "-" ++ natStr i.natAbs else natStr i.natAbs

/-- Thousands grouping of `f"{n:,}"`, working over the reversed digit
list: a comma before every third digit from the right. -/
def commaRev : Nat → List Char → List Char
  | _, [] => []
  | k, c :: rest =>
    if k ≠ 0 ∧ k % 3 = 0 then ',' :: c :: commaRev (k + 1) rest
    else c :: commaRev (k + 1) rest

def commaDigits (n : Nat) : List Char := (commaRev 0 (natDigits n).reverse).reverse

/-- Python `int(x)` truncates toward zero (`Int.div` is T-division). -/
def ratTruncInt (x : ℚ) : Int := Int.tdiv x.num (x.den : Int)

/-- `fmt_int(x)`: `f"{int(x):,}"`. -/
def fmt_int (x : ℚ) : String :=
  let i := ratTruncInt x
  if i < 0 then "-" ++ String.mk (commaDigits i.natAbs)
  else String.mk (commaDigits i.natAbs)

/-- `f"{x:.decs f}"` (fixed-point with `decs` fraction digits). -/
def fmtFixed (decs : Nat) (x : ℚ) : String :=
  let scale : ℚ := ((10 ^ decs : ℕ) : ℚ)
  let n : Int := ⌊|x| * scale + 1/2⌋
  let q := n.toNat
  let ip := q / 10 ^ decs
  let fp := q % 10 ^ decs
  let sign : String := if x < 0 then "-" else ""
  if decs = 0 then sign ++ natStr ip
  else
    let fd := natDigits fp
    sign ++ natStr ip ++ "." ++ String.mk (List.replicate (decs - fd.length) '0' ++ fd)

def fmtQ0 : ℚ → String := fmtFixed 0
def fmtQ1 : ℚ → String := fmtFixed 1
def fmtQ2 : ℚ → String := fmtFixed 2

/-- ASCII model of Python `str.upper()` (symbols are uppercased before
being interpolated into messages). -/
def pyUpperChar (c : Char) : Char :=
  if 'a' ≤ c ∧ c ≤ 'z' then Char.ofNat (c.toNat - 32) else c

def pyUpper (s : String) : String := ⟨s.data.map pyUpperChar⟩

/-- The coin-page URL stem used both to build `link` and to parse the
coin id back out of a rendered message (lines 670 and 778). -/
def linkStem : String := "https://www.coingecko.com/en/coins/"

/-- `f"{t1['vol_ratio']:.2f}x" if t1.get("vol_ratio") else "n/a"`
(Python truthiness: `None` and `0.0` both fall back). -/
def volRatioTxt (o : Option ℚ) : String :=
  match o with
  | some v => if v = 0 then "n/a" else fmtQ2 v ++ "x"
  | none => "n/a"

/-! ## Alert messages (run_once, lines 691-759) -/

def mkMsgT0 (score : ℚ) (name sym : String) (rank : Int) (t0 : T0Cand)
    (vol_now mcap : ℚ) (link : String) : String :=
  "⚪ **[Quiet Accumulation — Tier 0 / Watchlist]** | Score: **" ++ fmtQ1 score ++ "**\n" ++
  "Coin: **" ++ name ++ " (" ++ sym ++ ")** | Rank: #" ++ intStr rank ++ "\n" ++
  "Base: **" ++ natStr t0.base_days ++ "d** | Range: **" ++ fmtQ1 t0.base_range_pct ++
    "%** | Drawdown: **" ++ fmtQ1 t0.dd_pct ++ "%**\n" ++
  "RS vs BTC (base window): **" ++ fmtQ1 t0.rs_base ++ "%** | Volatility contracting: **" ++
    (if t0.contracting then "YES" else "no") ++ "**\n" ++
  "Volume(24h): **$" ++ fmt_int vol_now ++ "** | MCap: **$" ++ fmt_int mcap ++ "**\n" ++
  "Link: " ++ link ++ "\n" ++
  "Note: Watchlist-only. No breakout requirement."

def mkMsgT1 (score : ℚ) (name sym : String) (rank : Int) (t1 : T1Cand)
    (outperf c24 btc24 vol_now mcap : ℚ) (link : String) : String :=
  "🔵 **[Base Break Watch — Tier 1]** | Score: **" ++ fmtQ1 score ++ "** | " ++
    confidence_label score ++ "\n" ++
  "Coin: **" ++ name ++ " (" ++ sym ++ ")** | Rank: #" ++ intStr rank ++ "\n" ++
  "Base: **" ++ natStr t1.base_days ++ "d** | Range: **" ++ fmtQ1 t1.base_range_pct ++
    "%** | Stretch: **" ++ fmtQ1 t1.stretch_pct ++ "%**\n" ++
  "Lift: **" ++ fmtQ1 t1.r6 ++ "% (6h)**, **" ++ fmtQ1 t1.r12 ++ "% (12h)**\n" ++
  "RS vs BTC (24h): **" ++ fmtQ1 outperf ++ "%** (Coin " ++ fmtQ1 c24 ++ "% vs BTC " ++
    fmtQ1 btc24 ++ "%)\n" ++
  "Persistence: **" ++ fmtQ0 t1.green_ratio ++ "%** green steps (last " ++
    intStr PERSIST_WINDOW_MIN ++ "m)\n" ++
  "Volume(24h): **$" ++ fmt_int vol_now ++ "** | Vol/base: **" ++ volRatioTxt t1.vol_ratio ++
    "** | Spike: **" ++ volRatioTxt t1.spike_ratio ++ "**\n" ++
  "MCap: **$" ++ fmt_int mcap ++ "**\n" ++
  "Link: " ++ link

def mkMsgT2 (score : ℚ) (name sym : String) (rank : Int)
    (c24 c1h outperf vol_now mcap : ℚ) (link : String) : String :=
  "🟡 **[Early Build — Tier 2]** | Score: **" ++ fmtQ1 score ++ "**\n" ++
  "Coin: **" ++ name ++ " (" ++ sym ++ ")** | Rank: #" ++ intStr rank ++ "\n" ++
  "Move: **" ++ fmtQ1 c24 ++ "% (24h)**, **" ++ fmtQ1 c1h ++ "% (1h)**\n" ++
  "RS vs BTC (24h): **" ++ fmtQ1 outperf ++ "%**\n" ++
  "Volume(24h): **$" ++ fmt_int vol_now ++ "** | MCap: **$" ++ fmt_int mcap ++ "**\n" ++
  "Link: " ++ link

def mkMsgT3 (name sym : String) (rank : Int)
    (c24 c1h outperf vol_now mcap : ℚ) (link : String) : String :=
  "🔴 **[Momentum / Breakout — Tier 3]**\n" ++
  "Coin: **" ++ name ++ " (" ++ sym ++ ")** | Rank: #" ++ intStr rank ++ "\n" ++
  "Move: **" ++ fmtQ1 c24 ++ "% (24h)**, **" ++ fmtQ1 c1h ++ "% (1h)**\n" ++
  "RS vs BTC (24h): **" ++ fmtQ1 outperf ++ "%**\n" ++
  "Volume(24h): **$" ++ fmt_int vol_now ++ "** | MCap: **$" ++ fmt_int mcap ++ "**\n" ++
  "Link: " ++ link

/-! ## Parsing the coin id back out of a message (line 778)

`msg.split(URL)[1].split("\n")[0].strip()` — Python `str.split(sep)`
splits at non-overlapping occurrences left to right, so element `[1]` is
the text between the end of the first occurrence and the start of the
next one (or the end of the string); an `IndexError` (no occurrence at
all) is swallowed by the `except` and leaves the ledger unchanged. -/

/-- `leadsWith sep s`: the character list `sep` stands at the front of `s`. -/
def leadsWith : List Char → List Char → Bool
  | [], _ => true
  | _ :: _, [] => false
  | a :: as, b :: bs => a == b && leadsWith as bs

/-- Text after the first occurrence of `sep` (`none` if no occurrence). -/
def afterFirstOcc (sep : List Char) : List Char → Option (List Char)
  | [] => none
  | c :: cs =>
    if leadsWith sep (c :: cs) then some ((c :: cs).drop sep.length)
    else afterFirstOcc sep cs

/-- Text before the first occurrence of `sep` (all of it if none). -/
def upToFirstOcc (sep : List Char) : List Char → List Char
  | [] => []
  | c :: cs =>
    if leadsWith sep (c :: cs) then []
    else c :: upToFirstOcc sep cs

/-- `containsSeq s sub`: some occurrence of `sub` lies inside `s`. -/
def containsSeq (s sub : List Char) : Bool :=
  leadsWith sub s ||
    match s with
    | [] => false
    | _ :: t => containsSeq t sub

/-- The whitespace set of Python `str.strip()` (ASCII). -/
def isPyWs (c : Char) : Bool :=
  c == ' ' || c == '\t' || c == '\n' || c == '\r' || c == '\x0b' || c == '\x0c'

def pyStrip (l : List Char) : List Char :=
  ((l.dropWhile isPyWs).reverse.dropWhile isPyWs).reverse

/-- The whole of `msg.split(URL)[1].split("\n")[0].strip()`, with `none`
for the swallowed `IndexError`. -/
def parseCoinId (msg : String) : Option String :=
  match afterFirstOcc linkStem.data msg.data with
  | none => none
  | some rest =>
    some ⟨pyStrip ((upToFirstOcc linkStem.data rest).takeWhile (fun c => !(c == '\n')))⟩

/-! ## run_once (lines 612-799) -/

/-- `state["cooldowns"]`: four per-tier dicts of last-alert timestamps. -/
structure Cooldowns where
  t0 : List (String × Int)
  t1 : List (String × Int)
  t2 : List (String × Int)
  t3 : List (String × Int)
deriving Repr, DecidableEq

/-- `int(cooldowns.get(tier, {}).get(cid, 0))` -/
def cdGet (m : List (String × Int)) (cid : String) : Int := (m.lookup cid).getD 0

/-- The cooldown bookkeeping of lines 776-788: parse the coin id out of
the sent message and stamp `now` into that tier's dict. -/
def cooldownUpdate (cds : Cooldowns) (tier : String) (msg : String) (now : Int) : Cooldowns :=
  match parseCoinId msg with
  | none => cds
  | some coin_id =>
    if tier = "t0" then { cds with t0 := setKV cds.t0 coin_id now }
    else if tier = "t1" then { cds with t1 := setKV cds.t1 coin_id now }
    else if tier = "t2" then { cds with t2 := setKV cds.t2 coin_id now }
    else if tier = "t3" then { cds with t3 := setKV cds.t3 coin_id now }
    else cds

/-- One element of the `candidates` list: `(score, tier_label, message)`. -/
structure Cand where
  score : ℚ
  tier : String
  msg : String
deriving Repr, DecidableEq

/-- The Tier 0 block of the per-coin loop (lines 684-700). -/
def tier0Block (history : History) (cds : Cooldowns) (now : Int)
    (cid name sym link : String) (rank : Int) (vol_now mcap : ℚ) : List Cand :=
  if COOLDOWN_T0 ≤ now - cdGet cds.t0 cid then
    match tier0_quiet_accum history cid now mcap vol_now with
    | some t0c =>
      let score := score_tier0 t0c
      [⟨score, "t0", mkMsgT0 score name sym rank t0c vol_now mcap link⟩]
    | none => []
  else []

/-- The Tier 1 block of the per-coin loop (lines 702-724). -/
def tier1Block (history : History) (cds : Cooldowns) (now : Int)
    (cid name sym link : String) (rank : Int)
    (c24 btc24 vol_now mcap outperf : ℚ) (skip_t1_t2 : Bool) : List Cand :=
  if skip_t1_t2 then []
  else if COOLDOWN_T1 ≤ now - cdGet cds.t1 cid then
    match tier1_base_break history cid now c24 btc24 vol_now rank mcap with
    | some t1c =>
      let score := score_tier1 t1c
      [⟨score, "t1", mkMsgT1 score name sym rank t1c outperf c24 btc24 vol_now mcap link⟩]
    | none => []
  else []

/-- The Tier 2 block of the per-coin loop (lines 726-745). -/
def tier2Block (history : History) (cds : Cooldowns) (now : Int)
    (cid name sym link : String) (rank : Int)
    (c24 c1h btc24 vol_now mcap outperf : ℚ) (skip_t1_t2 : Bool) : List Cand :=
  if skip_t1_t2 then []
  else if COOLDOWN_T2 ≤ now - cdGet cds.t2 cid then
    match tier2_early_build history cid now c24 c1h btc24 vol_now rank with
    | some _ =>
      let score : ℚ := 3 + (if 8 < outperf then 2 else 0) + (if 1 < c1h then 1 else 0)
      [⟨score, "t2", mkMsgT2 score name sym rank c24 c1h outperf vol_now mcap link⟩]
    | none => []
  else []

/-- The Tier 3 block of the per-coin loop (lines 747-760). -/
def tier3Block (cds : Cooldowns) (now : Int)
    (cid name sym link : String) (rank : Int)
    (c24 c1h btc24 vol_now mcap outperf : ℚ) : List Cand :=
  if COOLDOWN_T3 ≤ now - cdGet cds.t3 cid then
    if tier3_momentum c24 c1h btc24 vol_now rank then
      let score : ℚ := 2 + (if 10 < outperf then 1 else 0)
      [⟨score, "t3", mkMsgT3 name sym rank c24 c1h outperf vol_now mcap link⟩]
    else []
  else []

/-- The per-coin body of the `for c in markets:` loop (lines 658-760):
the candidates this record contributes, in tier order. -/
def coinCandidates (history : History) (cds : Cooldowns) (now : Int)
    (btc24 : ℚ) (skip_t1_t2 : Bool) (c : Market) : List Cand :=
  match c.id with
  | none => []
  | some cid =>
  match c.market_cap_rank with
  | none => []
  | some rank =>
  let name := c.name.getD cid
  let sym := pyUpper (c.symbol.getD "")
  let link := linkStem ++ cid
  match c.c24 with
  | none => []
  | some c24 =>
  let c1h := c.c1h.getD 0
  let vol_now := c.total_volume.getD 0
  let mcap := c.market_cap.getD 0
  let outperf := c24 - btc24
  tier0Block history cds now cid name sym link rank vol_now mcap ++
  tier1Block history cds now cid name sym link rank c24 btc24 vol_now mcap outperf skip_t1_t2 ++
  tier2Block history cds now cid name sym link rank c24 c1h btc24 vol_now mcap outperf skip_t1_t2 ++
  tier3Block cds now cid name sym link rank c24 c1h btc24 vol_now mcap outperf

/-- All candidates of one evaluation pass (the whole `for c in markets:`
loop). -/
def passCandidates (history : History) (cds : Cooldowns) (now : Int)
    (btc24 : ℚ) (skip_t1_t2 : Bool) (markets : List Market) : List Cand :=
  markets.flatMap (coinCandidates history cds now btc24 skip_t1_t2)

/-- History update of lines 627-639 for one record. -/
def appendMarket (now : Int) (h : History) (c : Market) : History :=
  match c.id with
  | none => h
  | some cid =>
    match c.current_price, c.total_volume with
    | some price, some vol =>
      let mcap := c.market_cap.getD 0
      setKV h cid (historyGet h cid ++ [⟨now, price, some vol, mcap⟩])
    | _, _ => h

/-- Lines 627-641: ingest the snapshot, then `clamp_history`. -/
def updateHistory (history : History) (markets : List Market) (now : Int) : History :=
  clamp_history (markets.foldl (appendMarket now) history) (now - HISTORY_SECONDS)

/-- BTC context of lines 644-649: 24h return from the stored history. -/
def btcTrend (history : History) (now : Int) : Option ℚ :=
  let btc_pts := get_recent_points history "bitcoin" BTC_TREND_WINDOW now
  if 2 ≤ btc_pts.length then
    let btc_prices := btc_pts.map (·.p)
    if 2 ≤ btc_prices.length then
      compute_return_pct btc_prices.head? btc_prices.getLast?
    else none
  else none

/-- `skip_t1_t2` of lines 651-653. -/
def skipFlag (history : History) (now : Int) : Bool :=
  match btcTrend history now with
  | some v => decide (v < MIN_BTC_TREND)
  | none => false

/-- `candidates.sort(key=lambda x: x[0], reverse=True)` — stable,
descending by score. -/
def sortDesc (l : List Cand) : List Cand :=
  l.insertionSort (fun a b => b.score ≤ a.score)

/-- Mutable state of the admission loop (lines 765-788): the rate window,
the cooldown ledgers, and the alerts admitted so far (in order; the
source's `alerts_sent` counter is this list's length). -/
structure AdmitAcc where
  recent : List Int
  cds : Cooldowns
  sent : List Cand
deriving Repr, DecidableEq

/-- `tier == "t1" and score >= 8.0` — the rate-cap override test of
line 769. -/
def isOverrideC (c : Cand) : Bool :=
  c.tier == "t1" && decide ((8 : ℚ) ≤ c.score)

/-- One iteration of the admission loop: skip when the rolling-hour
window is saturated unless the candidate is Tier 1 with score ≥ 8;
otherwise send, stamp the rate window, and update the cooldown ledger. -/
def admitStep (now : Int) (acc : AdmitAcc) (c : Cand) : AdmitAcc :=
  if MAX_ALERTS_PER_HOUR ≤ acc.recent.length ∧ isOverrideC c = false then acc
  else
    { recent := acc.recent ++ [now],
      cds := cooldownUpdate acc.cds c.tier c.msg now,
      sent := acc.sent ++ [c] }

/-- The persisted state: history, cooldown ledgers, rate window. -/
structure BotState where
  history : History
  cds : Cooldowns
  recent : List Int
deriving Repr, DecidableEq

/-- `run_once`, as a pure function of (state, provider snapshot, now):
returns the persisted state and the admitted alerts in send order. -/
def runOnce (st : BotState) (markets : List Market) (now : Int) : BotState × List Cand :=
  let recent1 := st.recent.filter (fun t => now - t < 3600)
  let btc24 := extract_btc_24h markets
  let history1 := updateHistory st.history markets now
  let skip := skipFlag history1 now
  let cands := passCandidates history1 st.cds now btc24 skip markets
  let sorted := sortDesc cands
  let acc := sorted.foldl (admitStep now) ⟨recent1, st.cds, []⟩
  (⟨history1, acc.cds, acc.recent⟩, acc.sent)

/-! ## Tiers (for stating per-tier properties of the pass) -/

inductive Tier
  | t0
  | t1
  | t2
  | t3
deriving DecidableEq, Repr

/-- The tier label used in the `candidates` tuples. -/
def tierLabel : Tier → String
  | .t0 => "t0"
  | .t1 => "t1"
  | .t2 => "t2"
  | .t3 => "t3"

/-- The tier's cooldown constant. -/
def tierCooldown : Tier → Int
  | .t0 => COOLDOWN_T0
  | .t1 => COOLDOWN_T1
  | .t2 => COOLDOWN_T2
  | .t3 => COOLDOWN_T3

/-- The tier's ledger inside the `cooldowns` dict. -/
def tierLedger (cds : Cooldowns) : Tier → List (String × Int)
  | .t0 => cds.t0
  | .t1 => cds.t1
  | .t2 => cds.t2
  | .t3 => cds.t3

/-! ## Helper lemmas about the list primitives -/

theorem le_listMax {l : List ℚ} {x : ℚ} (hx : x ∈ l) : x ≤ listMax l := by
  induction l with
  | nil => cases hx
  | cons a rest ih =>
    cases rest with
    | nil => simp only [List.mem_singleton] at hx; simp [listMax, hx]
    | cons b tl =>
      rcases List.mem_cons.mp hx with h | h
      · simp [listMax, h, le_max_left]
      · exact le_trans (ih h) (by simp [listMax, le_max_right])

theorem listMax_mem {l : List ℚ} (h : l ≠ []) : listMax l ∈ l := by
  induction l with
  | nil => exact absurd rfl h
  | cons a rest ih =>
    cases rest with
    | nil => simp [listMax]
    | cons b tl =>
      rcases max_choice a (listMax (b :: tl)) with hm | hm
      · simp [listMax, hm]
      · simpa [listMax, hm] using Or.inr (ih (by simp))

theorem listSum_le_mul_max {l : List ℚ} : listSum l ≤ (l.length : ℚ) * listMax l := by
  induction l with
  | nil => simp [listSum, listMax]
  | cons a rest ih =>
    cases rest with
    | nil => simp [listSum, listMax]
    | cons b tl =>
      have hmax : listMax (b :: tl) ≤ listMax (a :: b :: tl) := by
        simp [listMax, le_max_right]
      have ha : a ≤ listMax (a :: b :: tl) := le_listMax (by simp)
      have hlen : (0 : ℚ) ≤ ((b :: tl).length : ℚ) := by positivity
      calc listSum (a :: b :: tl) = a + listSum (b :: tl) := rfl
        _ ≤ listMax (a :: b :: tl) + ((b :: tl).length : ℚ) * listMax (b :: tl) :=
            add_le_add ha ih
        _ ≤ listMax (a :: b :: tl) + ((b :: tl).length : ℚ) * listMax (a :: b :: tl) :=
            add_le_add_left (mul_le_mul_of_nonneg_left hmax hlen) _
        _ = ((a :: b :: tl).length : ℚ) * listMax (a :: b :: tl) := by
            push_cast [List.length_cons]; ring

theorem getLast?_mem {α : Type} {l : List α} {x : α} (h : l.getLast? = some x) : x ∈ l := by
  cases l with
  | nil => simp at h
  | cons a rest =>
    have := List.getLast?_eq_getLast (a :: rest) (by simp)
    rw [this] at h
    exact (Option.some_inj.mp h) ▸ List.getLast_mem _

/-! ## Claim C8: pruning -/

/-- Claim C8: for every history store and cutoff, after `clamp_history`
no asset's sequence contains a sample with timestamp strictly below the
cutoff, and any asset all of whose samples are strictly older than the
cutoff is absent from the pruned store. -/
theorem clamp_history_spec (history : History) (cutoff : Int) :
    (∀ cid pts, (cid, pts) ∈ clamp_history history cutoff →
      pts ≠ [] ∧ ∀ p ∈ pts, ¬ p.ts < cutoff) ∧
    (∀ cid, (∀ pts, (cid, pts) ∈ history → ∀ p ∈ pts, p.ts < cutoff) →
      cid ∉ (clamp_history history cutoff).map Prod.fst) := by
  constructor
  · intro cid pts hmem
    rcases List.mem_filterMap.mp hmem with ⟨e, -, he⟩
    by_cases hne : (e.2.filter (fun p => decide (cutoff ≤ p.ts))).isEmpty = true
    · rw [if_pos hne] at he; cases he
    · rw [if_neg hne] at he
      injection he with he'
      have h2 : e.2.filter (fun p => decide (cutoff ≤ p.ts)) = pts :=
        congrArg Prod.snd he'
      rw [← h2]
      refine ⟨fun hnil => hne (by simp [hnil]), ?_⟩
      intro p hp
      have := (List.mem_filter.mp hp).2
      simp only [decide_eq_true_eq] at this
      omega
  · intro cid hall hmem
    rcases List.mem_map.mp hmem with ⟨⟨cid', pts⟩, hmem', hfst⟩
    rcases List.mem_filterMap.mp hmem' with ⟨⟨k, v⟩, hmeme, hfe⟩
    by_cases hne : ((v.filter (fun p => decide (cutoff ≤ p.ts))).isEmpty = true)
    · rw [if_pos hne] at hfe; cases hfe
    · rw [if_neg hne] at hfe
      injection hfe with hfe'
      have hk : k = cid' := congrArg Prod.fst hfe'
      have hv : v.filter (fun p => decide (cutoff ≤ p.ts)) = pts :=
        congrArg Prod.snd hfe'
      have hnonnil : v.filter (fun p => decide (cutoff ≤ p.ts)) ≠ [] := by
        intro hnil; exact hne (by simp [hnil])
      rcases List.exists_mem_of_ne_nil _ hnonnil with ⟨p, hp⟩
      have hmemp : p ∈ v := (List.mem_filter.mp hp).1
      have hge : cutoff ≤ p.ts := by
        have := (List.mem_filter.mp hp).2
        simpa using this
      have hcid : cid = cid' := hfst.symm
      have hlt : p.ts < cutoff := hall v (by rw [hcid, ← hk]; exact hmeme) p hmemp
      omega

/-- Concrete instance of `clamp_history_spec`: a kept sample passes the
cutoff, and an asset with only stale samples loses its key. -/
theorem clamp_history_spec_witness :
    (∀ p ∈ [Point.mk 5 1 none 0], ¬ p.ts < 3) ∧
    "b" ∉ (clamp_history [("b", [Point.mk 1 1 none 0])] 3).map Prod.fst := by
  constructor
  · exact ((clamp_history_spec [("a", [Point.mk 5 1 none 0])] 3).1
      "a" [Point.mk 5 1 none 0] (by decide)).2
  · refine (clamp_history_spec [("b", [Point.mk 1 1 none 0])] 3).2 "b" ?_
    intro pts hm
    simp only [List.mem_singleton, Prod.mk.injEq, true_and] at hm
    rw [hm]
    decide

/-! ## Claim C10: reference-asset fallback -/

/-- Claim C10: if the snapshot has no `"bitcoin"` record with a non-null
24h-change field, the reference change used for the pass is `0.0`, and
every asset's outperformance (`c24 - btc24`) collapses to its raw 24h
return; the pass is a total function, so it completes. -/
theorem extract_btc_fallback (markets : List Market)
    (h : ∀ c ∈ markets, c.id = some "bitcoin" → c.c24 = none) :
    extract_btc_24h markets = 0 ∧
    ∀ c ∈ markets, ∀ x, c.c24 = some x → x - extract_btc_24h markets = x := by
  have h0 : extract_btc_24h markets = 0 := by
    induction markets with
    | nil => rfl
    | cons a rest ih =>
      have hrest : extract_btc_24h rest = 0 :=
        ih (fun c hc => h c (List.mem_cons_of_mem a hc))
      by_cases ha : a.id = some "bitcoin"
      · have hnone : a.c24 = none := h a (List.mem_cons_self a rest) ha
        simp [extract_btc_24h, ha, hnone, hrest]
      · simp [extract_btc_24h, ha, hrest]
  exact ⟨h0, fun c _ x _ => by rw [h0, sub_zero]⟩

/-- Concrete instance of `extract_btc_fallback`: a null-field bitcoin
record plus an ordinary asset. -/
theorem extract_btc_fallback_witness :
    extract_btc_24h
      [{ id := some "bitcoin", name := none, symbol := none, market_cap_rank := none,
         current_price := none, total_volume := none, market_cap := none,
         c24 := none, c1h := none },
       { id := some "ethereum", name := none, symbol := none, market_cap_rank := some 2,
         current_price := some 100, total_volume := some 1000, market_cap := some 10000,
         c24 := some 5, c1h := some 1 }] = 0 := by
  exact (extract_btc_fallback _ (by decide)).1

/-! ## Tier 1 is unsatisfiable

The Tier 1 detector requires `p_now >= p_high * 1.03`, but `p_high` is
the maximum of a window that contains the current sample, so
`p_now <= p_high` always holds and the clearance gate rejects every
window. -/

theorem getLastD_le_max {l : List ℚ} (h : l ≠ []) : l.getLast?.getD 0 ≤ listMax l := by
  have hmem : l.getLast?.getD 0 ∈ l := by
    rw [List.getLast?_eq_getLast l h, Option.getD_some]
    exact List.getLast_mem h
  exact le_listMax hmem

theorem avg_le_max {l : List ℚ} (h : l ≠ []) :
    listSum l / (l.length : ℚ) ≤ listMax l := by
  have hlen : 0 < (l.length : ℚ) := by
    have := List.length_pos.mpr h
    exact_mod_cast this
  rw [div_le_iff₀ hlen]
  calc listSum l ≤ (l.length : ℚ) * listMax l := listSum_le_mul_max
    _ = listMax l * (l.length : ℚ) := mul_comm _ _

/-- The false-breakout filter's condition always holds: the last price of
the window cannot exceed the window's maximum by 3%. -/
theorem clearance_always_fails {l : List ℚ} (hne : l ≠ [])
    (havg : 0 < listSum l / (l.length : ℚ)) :
    l.getLast?.getD 0 < listMax l * (1 + CLEARANCE_ABOVE_BASE_HIGH) := by
  have hmax : 0 < listMax l := lt_of_lt_of_le havg (avg_le_max hne)
  have hlast : l.getLast?.getD 0 ≤ listMax l := getLastD_le_max hne
  have : listMax l < listMax l * (1 + CLEARANCE_ABOVE_BASE_HIGH) := by
    have h1 : (1 : ℚ) < 1 + CLEARANCE_ABOVE_BASE_HIGH := by
      norm_num [CLEARANCE_ABOVE_BASE_HIGH]
    exact lt_mul_of_one_lt_right hmax h1
  exact lt_of_le_of_lt hlast this

theorem tier1_try_eq_none (history : History) (coin_id : String) (now : Int)
    (vol_now outperf : ℚ) (base_days : Nat) :
    tier1_try history coin_id now vol_now outperf base_days = none := by
  simp only [tier1_try]
  split
  · rfl
  next h20 =>
  split
  · rfl
  next h20p =>
  split
  · rfl
  next havg =>
  split
  · rfl
  next hrange =>
  split
  next r6 r12 heq6 heq12 =>
    split
    · rfl
    next hlift =>
      set prices := (get_recent_points history coin_id ((base_days : Int) * 24 * 60 * 60) now).map
        (·.p) with hprices
      have hne : prices ≠ [] := by
        intro hnil
        exact h20p (by rw [hnil]; norm_num)
      have havg' : 0 < listSum prices / (prices.length : ℚ) := not_le.mp havg
      rw [if_pos (clearance_always_fails hne havg')]
  next => rfl

theorem tier1_base_break_eq_none_aux (history : History) (coin_id : String)
    (now : Int) (c24 btc24 vol_now : ℚ) (rank : Int) (mcap : ℚ) :
    tier1_base_break history coin_id now c24 btc24 vol_now rank mcap = none := by
  simp only [tier1_base_break]
  split
  · rfl
  split
  · rfl
  split
  · rfl
  split
  · rfl
  have hfold : ∀ (L : List Nat),
      L.foldl (tier1_step history coin_id now vol_now (c24 - btc24)) none = none := by
    intro L
    induction L with
    | nil => rfl
    | cons d rest ih =>
      rw [List.foldl_cons, tier1_step, tier1_try_eq_none]
      exact ih
  exact hfold _

/-! ## Claim C3 -/

/-- Claim C3 (code bug): as coded, `tier1_base_break` never returns a
candidate on any input whatsoever — the clearance gate
`p_now < p_high * 1.03` always triggers because the current price is
itself part of the base window whose maximum is `p_high`.  The claimed
invariant about emitted candidates is therefore vacuous, against the
spec's own end-to-end example which expects a Tier 1 candidate. -/
theorem tier1_never_emits (history : History) (coin_id : String) (now : Int)
    (c24 btc24 vol_now : ℚ) (rank : Int) (mcap : ℚ) :
    tier1_base_break history coin_id now c24 btc24 vol_now rank mcap = none :=
  tier1_base_break_eq_none_aux history coin_id now c24 btc24 vol_now rank mcap

/-! ## Claim C5 -/

/-- The spec's golden Tier 1 example: a 4-day base oscillating between
$0.95 and $1.00 with median base volume $15M, and a current sample at
$1.02 on volume $25M. -/
def goldenPts : List Point :=
  (List.range 24).map (fun i =>
    ⟨(i : Int) * 14400 + 54400, if i % 2 = 0 then 95/100 else 1, some 15000000, 500000000⟩)
  ++ [⟨400000, 102/100, some 25000000, 500000000⟩]

/-- The golden example's history: asset X plus a flat reference asset. -/
def goldenHistory : History :=
  [("xcoin", goldenPts),
   ("bitcoin",
     (List.range 24).map (fun i =>
       ⟨(i : Int) * 14400 + 54400, 100, some 1000000000, 1000000000000⟩)
     ++ [⟨400000, 100, some 1000000000, 1000000000000⟩])]

/-- Claim C5 (code bug): even on the spec's golden Tier 1 input — rank
50, market cap $500M, 24h volume $25M against a $15M base median
(ratio 1.67), outperformance 6 — `tier1_base_break` returns no
candidate, so the claimed volume-acceleration gates on emitted
candidates are never exercised: the unsatisfiable clearance gate comes
first. -/
theorem tier1_golden_example_none :
    tier1_base_break goldenHistory "xcoin" 400000 6 0 25000000 50 500000000 = none :=
  tier1_base_break_eq_none_aux goldenHistory "xcoin" 400000 6 0 25000000 50 500000000

/-! ## Claim C6 -/

/-- Claim C6 (code bug): with at least `MA_FAST_STEPS` but fewer than
`MA_SLOW_STEPS` persistence samples, the trend-confluence filter sets the
slow average equal to the fast average and then rejects because
`ma_fast <= ma_slow` always holds — every asset with 6-11 persistence
samples is rejected by the filter, regardless of its trend. -/
theorem maFilter_rejects_short_windows (persist_prices : List ℚ)
    (h6 : 6 ≤ persist_prices.length) (h12 : persist_prices.length < 12) :
    maFilterRejects persist_prices = true := by
  have h6' : MA_FAST_STEPS ≤ persist_prices.length := h6
  simp only [maFilterRejects, MA_FAST_STEPS, MA_SLOW_STEPS]
  rw [if_pos h6, if_neg (by omega : ¬ 12 ≤ persist_prices.length)]
  have hne : persist_prices.drop (persist_prices.length - 6) ≠ [] := by
    have hlen : (persist_prices.drop (persist_prices.length - 6)).length = 6 := by
      rw [List.length_drop]; omega
    intro h
    rw [h] at hlen
    simp at hlen
  obtain ⟨f, hf⟩ : ∃ f, moving_average (persist_prices.drop (persist_prices.length - 6)) = some f := by
    cases hl : persist_prices.drop (persist_prices.length - 6) with
    | nil => exact absurd hl hne
    | cons a t => exact ⟨_, rfl⟩
  rw [hf]
  simp

/-- Concrete instance of `maFilter_rejects_short_windows`: six strictly
rising prices — the asset is trending up, yet the filter rejects it. -/
theorem maFilter_rejects_short_windows_witness :
    maFilterRejects [1, 2, 3, 4, 5, 6] = true :=
  maFilter_rejects_short_windows [1, 2, 3, 4, 5, 6] (by norm_num) (by norm_num)

/-! ## Claim C4: Tier 0 gating

The claim's gate conditions, phrased over the exact quantities
`tier0_try` computes for one base window. -/

/-- The window `tier0_try` inspects for a given base length. -/
abbrev tier0_window (history : History) (coin_id : String) (now : Int)
    (base_days : Nat) : List Point :=
  get_recent_points history coin_id ((base_days : Int) * 24 * 60 * 60) now

/-- The hard gates Claim C4 lists, for one base window: sample counts,
positive prices (data-model invariant), base range, drawdown, relative
strength, market cap and 24h volume. -/
abbrev tier0_hard_gates_on (pts btc_pts : List Point) (mcap vol_now : ℚ) : Prop :=
  MIN_MARKET_CAP_T0 ≤ mcap ∧
  MIN_VOL_T0 ≤ vol_now ∧
  MIN_POINTS_T0 ≤ pts.length ∧
  MIN_POINTS_T0 ≤ btc_pts.length ∧
  (∀ x ∈ pts.map (·.p), 0 < x) ∧
  (∀ x ∈ btc_pts.map (·.p), 0 < x) ∧
  (listMax (pts.map (·.p)) - listMin (pts.map (·.p))) /
      (listSum (pts.map (·.p)) / ((pts.map (·.p)).length : ℚ)) ≤ BASE_MAX_RANGE_PCT_T0 ∧
  (listMax (pts.map (·.p)) - listMin (pts.map (·.p))) / listMax (pts.map (·.p)) ≤
      MAX_DRAWDOWN_IN_BASE_T0 ∧
  RS_BASE_MIN_T0 ≤
    (compute_return_pct (pts.map (·.p)).head? (pts.map (·.p)).getLast?).getD 0 -
      (compute_return_pct (btc_pts.map (·.p)).head? (btc_pts.map (·.p)).getLast?).getD 0

abbrev tier0_hard_gates (history : History) (coin_id btc_id : String) (now : Int)
    (mcap vol_now : ℚ) (base_days : Nat) : Prop :=
  tier0_hard_gates_on (tier0_window history coin_id now base_days)
    (tier0_window history btc_id now base_days) mcap vol_now

/-- The volume-stability condition of lines 415-424 in positive form:
enough positive volume samples, and the recent-half median at least 85%
of the older-half median. -/
abbrev tier0_vol_stability_on (pts : List Point) : Prop :=
  MIN_POINTS_T0 ≤ (posVols pts).length ∧
  (median ((posVols pts).take ((posVols pts).length / 2))).getD 0 * VOL_STABILITY_MIN_T0 ≤
    (median ((posVols pts).drop ((posVols pts).length / 2))).getD 0

abbrev tier0_vol_stability (history : History) (coin_id : String) (now : Int)
    (base_days : Nat) : Prop :=
  tier0_vol_stability_on (tier0_window history coin_id now base_days)

theorem listSum_pos {l : List ℚ} (hne : l ≠ []) (hpos : ∀ x ∈ l, 0 < x) :
    0 < listSum l := by
  induction l with
  | nil => exact absurd rfl hne
  | cons a rest ih =>
    have ha : 0 < a := hpos a (by simp)
    cases rest with
    | nil => simpa [listSum] using ha
    | cons b tl =>
      have h2 : 0 < listSum (b :: tl) := ih (by simp) (fun x hx => hpos x (by simp [hx]))
      exact add_pos ha h2

theorem median_ne_none {l : List ℚ} (h : l ≠ []) : ∃ m, median l = some m := by
  cases l with
  | nil => exact absurd rfl h
  | cons a t =>
    simp only [median]
    split
    · exact ⟨_, rfl⟩
    · exact ⟨_, rfl⟩

theorem crp_some {l : List ℚ} (hne : l ≠ []) (hpos : ∀ x ∈ l, 0 < x) :
    ∃ r, compute_return_pct l.head? l.getLast? = some r := by
  cases l with
  | nil => exact absurd rfl hne
  | cons a t =>
    have hp0 : 0 < a := hpos a (by simp)
    obtain ⟨lst, hl⟩ : ∃ x, (a :: t).getLast? = some x :=
      ⟨(a :: t).getLast (by simp), List.getLast?_eq_getLast _ (by simp)⟩
    rw [List.head?_cons, hl]
    simp only [compute_return_pct]
    rw [if_neg (not_le.mpr hp0)]
    exact ⟨_, rfl⟩

theorem tier0_contraction_phase_some {prices : List ℚ}
    (hlen : MIN_POINTS_T0 ≤ prices.length) (hpos : ∀ x ∈ prices, 0 < x) :
    ∃ b, tier0_contraction_phase prices = some b := by
  have h30 : 30 ≤ prices.length := hlen
  have hel : (prices.take (prices.length / 2)).length = prices.length / 2 := by
    rw [List.length_take]; omega
  have hll : (prices.drop (prices.length / 2)).length = prices.length - prices.length / 2 := by
    rw [List.length_drop]
  have hene : prices.take (prices.length / 2) ≠ [] := by
    intro h; rw [h] at hel; simp at hel; omega
  have hlne : prices.drop (prices.length / 2) ≠ [] := by
    intro h; rw [h] at hll; simp at hll; omega
  have hepos : ∀ x ∈ prices.take (prices.length / 2), 0 < x :=
    fun x hx => hpos x (List.take_subset _ _ hx)
  have hlpos : ∀ x ∈ prices.drop (prices.length / 2), 0 < x :=
    fun x hx => hpos x (List.drop_subset _ _ hx)
  have heavg : 0 < listSum (prices.take (prices.length / 2)) /
      ((prices.take (prices.length / 2)).length : ℚ) := by
    apply div_pos (listSum_pos hene hepos)
    exact_mod_cast List.length_pos.mpr hene
  have hlavg : 0 < listSum (prices.drop (prices.length / 2)) /
      ((prices.drop (prices.length / 2)).length : ℚ) := by
    apply div_pos (listSum_pos hlne hlpos)
    exact_mod_cast List.length_pos.mpr hlne
  simp only [tier0_contraction_phase]
  rw [if_neg (by rw [not_or, not_lt, not_lt]; constructor <;> omega),
      if_neg (by rw [not_or, not_le, not_le]; exact ⟨heavg, hlavg⟩)]
  exact ⟨_, rfl⟩

theorem tier0_vol_phase_eq {pts : List Point} {cand : T0Cand}
    (hv : tier0_vol_stability_on pts) :
    tier0_vol_phase pts cand = some cand := by
  obtain ⟨hlen, hmed⟩ := hv
  have h30 : 30 ≤ (posVols pts).length := hlen
  have htklen : ((posVols pts).take ((posVols pts).length / 2)).length =
      (posVols pts).length / 2 := by
    rw [List.length_take]; omega
  have hdplen : ((posVols pts).drop ((posVols pts).length / 2)).length =
      (posVols pts).length - (posVols pts).length / 2 := by
    rw [List.length_drop]
  have htk : (posVols pts).take ((posVols pts).length / 2) ≠ [] := by
    intro h
    rw [h] at htklen
    simp only [List.length_nil] at htklen
    omega
  have hdp : (posVols pts).drop ((posVols pts).length / 2) ≠ [] := by
    intro h
    rw [h] at hdplen
    simp only [List.length_nil] at hdplen
    omega
  obtain ⟨om, hom⟩ := median_ne_none htk
  obtain ⟨rm, hrm⟩ := median_ne_none hdp
  rw [hom, hrm] at hmed
  simp only [Option.getD_some] at hmed
  simp only [tier0_vol_phase]
  rw [if_neg (not_lt.mpr hlen), hom, hrm]
  show (if om ≠ 0 ∧ rm ≠ 0 ∧ rm < om * VOL_STABILITY_MIN_T0 then none else some cand) = some cand
  rw [if_neg (fun hc => absurd hc.2.2 (not_lt.mpr hmed))]

theorem tier0_rs_phase_some {pts : List Point} {base_days : Nat}
    {base_range dd cr br : ℚ} (hrs : RS_BASE_MIN_T0 ≤ cr - br)
    (hplen : MIN_POINTS_T0 ≤ (pts.map (·.p)).length)
    (hpos : ∀ x ∈ pts.map (·.p), 0 < x)
    (hv : tier0_vol_stability_on pts) :
    ∃ c, tier0_rs_phase pts base_days base_range dd cr br = some c := by
  simp only [tier0_rs_phase]
  rw [if_neg (not_lt.mpr hrs)]
  obtain ⟨bflag, hbf⟩ := tier0_contraction_phase_some hplen hpos
  rw [hbf]
  exact ⟨_, tier0_vol_phase_eq hv⟩

theorem tier0_base_checks_some {pts btc_pts : List Point} (base_days : Nat)
    (hlen : MIN_POINTS_T0 ≤ pts.length) (hblen : MIN_POINTS_T0 ≤ btc_pts.length)
    (hpos : ∀ x ∈ pts.map (·.p), 0 < x) (hbpos : ∀ x ∈ btc_pts.map (·.p), 0 < x)
    (hrange : (listMax (pts.map (·.p)) - listMin (pts.map (·.p))) /
      (listSum (pts.map (·.p)) / ((pts.map (·.p)).length : ℚ)) ≤ BASE_MAX_RANGE_PCT_T0)
    (hdd : (listMax (pts.map (·.p)) - listMin (pts.map (·.p))) / listMax (pts.map (·.p)) ≤
      MAX_DRAWDOWN_IN_BASE_T0)
    (hrs : RS_BASE_MIN_T0 ≤
      (compute_return_pct (pts.map (·.p)).head? (pts.map (·.p)).getLast?).getD 0 -
        (compute_return_pct (btc_pts.map (·.p)).head? (btc_pts.map (·.p)).getLast?).getD 0)
    (hv : tier0_vol_stability_on pts) :
    ∃ c, tier0_base_checks pts btc_pts base_days = some c := by
  simp only [tier0_base_checks]
  have hplen : MIN_POINTS_T0 ≤ (pts.map (·.p)).length := by
    rw [List.length_map]; exact hlen
  have hpblen : MIN_POINTS_T0 ≤ (btc_pts.map (·.p)).length := by
    rw [List.length_map]; exact hblen
  have hne : pts.map (·.p) ≠ [] := by
    intro h
    rw [h] at hplen
    simp [MIN_POINTS_T0] at hplen
  have hbne : btc_pts.map (·.p) ≠ [] := by
    intro h
    rw [h] at hpblen
    simp [MIN_POINTS_T0] at hpblen
  have hsum : 0 < listSum (pts.map (·.p)) := listSum_pos hne hpos
  have hlenq : (0:ℚ) < ((pts.map (·.p)).length : ℚ) := by
    exact_mod_cast List.length_pos.mpr hne
  have havg : 0 < listSum (pts.map (·.p)) / ((pts.map (·.p)).length : ℚ) :=
    div_pos hsum hlenq
  have hmax : 0 < listMax (pts.map (·.p)) := lt_of_lt_of_le havg (avg_le_max hne)
  rw [if_neg (by rw [not_or, not_lt, not_lt]; exact ⟨hplen, hpblen⟩),
      if_neg (by rw [not_or, not_le, not_le]; exact ⟨havg, hmax⟩),
      if_neg (not_lt.mpr hrange), if_neg (not_lt.mpr hdd)]
  obtain ⟨cr, hcr⟩ := crp_some hne hpos
  obtain ⟨br, hbr⟩ := crp_some hbne hbpos
  rw [hcr, hbr] at hrs
  simp only [Option.getD_some] at hrs
  rw [hcr, hbr]
  show ∃ c, tier0_rs_phase pts base_days _ _ cr br = some c
  exact tier0_rs_phase_some hrs hplen hpos hv

theorem tier0_try_some (history : History) (coin_id btc_id : String) (now : Int)
    (mcap vol_now : ℚ) (base_days : Nat)
    (hg : tier0_hard_gates_on (tier0_window history coin_id now base_days)
      (tier0_window history btc_id now base_days) mcap vol_now)
    (hv : tier0_vol_stability_on (tier0_window history coin_id now base_days)) :
    ∃ c, tier0_try history coin_id now btc_id base_days = some c := by
  obtain ⟨-, -, hlen, hblen, hpos, hbpos, hrange, hdd, hrs⟩ := hg
  simp only [tier0_try]
  rw [if_neg (by rw [not_or, not_lt, not_lt]; exact ⟨hlen, hblen⟩)]
  exact tier0_base_checks_some base_days hlen hblen hpos hbpos hrange hdd hrs hv

theorem tier0_foldl_keeps_some (history : History) (coin_id : String) (now : Int)
    (btc_id : String) :
    ∀ (L : List Nat) (acc : Option T0Cand), acc.isSome →
      (L.foldl (tier0_step history coin_id now btc_id) acc).isSome := by
  intro L
  induction L with
  | nil => intro acc h; exact h
  | cons e rest ih =>
    intro acc h
    rw [List.foldl_cons]
    apply ih
    unfold tier0_step
    split
    · exact h
    · split
      · simp
      · simp

theorem tier0_foldl_isSome_of_mem (history : History) (coin_id : String) (now : Int)
    (btc_id : String) :
    ∀ (L : List Nat) (acc : Option T0Cand) (d : Nat), d ∈ L →
      (tier0_try history coin_id now btc_id d).isSome →
      (L.foldl (tier0_step history coin_id now btc_id) acc).isSome := by
  intro L
  induction L with
  | nil => intro acc d hd; cases hd
  | cons e rest ih =>
    intro acc d hd hsome
    rw [List.foldl_cons]
    rcases List.mem_cons.mp hd with rfl | hd'
    · apply tier0_foldl_keeps_some
      obtain ⟨c, hc⟩ := Option.isSome_iff_exists.mp hsome
      unfold tier0_step
      rw [hc]
      cases acc <;> simp
    · exact ih _ d hd' hsome

/-- Claim C4 (amended): for every base length of 4-6 days on which the
asset passes the hard gates (count, range, drawdown, relative strength,
market cap, 24h volume, positive prices) AND the volume-stability gate
(at least 30 positive volume samples whose recent-half median is at
least 85% of the older-half median), `tier0_quiet_accum` returns a
candidate.  Volatility contraction is only recorded as a flag — it is
not required, and (per the counterexample) it cannot substitute for the
volume-stability gate. -/
theorem tier0_amended (history : History) (coin_id : String) (now : Int)
    (mcap vol_now : ℚ) (base_days : Nat)
    (hd4 : 4 ≤ base_days) (hd6 : base_days ≤ 6)
    (hg : tier0_hard_gates history coin_id "bitcoin" now mcap vol_now base_days)
    (hv : tier0_vol_stability history coin_id now base_days) :
    (tier0_quiet_accum history coin_id now mcap vol_now).isSome := by
  obtain ⟨c, hc⟩ := tier0_try_some history coin_id "bitcoin" now mcap vol_now base_days hg hv
  have hmcap : MIN_MARKET_CAP_T0 ≤ mcap := hg.1
  have hvol : MIN_VOL_T0 ≤ vol_now := hg.2.1
  unfold tier0_quiet_accum
  rw [if_neg (not_lt.mpr hmcap), if_neg (not_lt.mpr hvol)]
  apply tier0_foldl_isSome_of_mem history coin_id now "bitcoin" _ none base_days
  · rw [List.mem_range'_1]
    simp only [BASE_DAYS_T0_MIN, BASE_DAYS_T0_MAX]
    omega
  · rw [hc]; rfl

/-- Concrete instance of `tier0_amended`: a 30-sample tight base with
stable volume fires Tier 0. -/
def witPts : List Point :=
  (List.range 30).map (fun i =>
    ⟨60000 + (i : Int) * 1000,
     if i < 15 then (if i % 2 = 0 then 100 else 104) else 102,
     some 1000, 0⟩)

def witBtcPts : List Point :=
  (List.range 30).map (fun i => ⟨60000 + (i : Int) * 1000, 100, some 1000, 0⟩)

def witHistory : History := [("alt", witPts), ("bitcoin", witBtcPts)]

theorem tier0_amended_witness :
    (tier0_quiet_accum witHistory "alt" 400000 100000000 20000000).isSome := by
  apply tier0_amended witHistory "alt" 400000 100000000 20000000 4
    (by norm_num) (by norm_num)
  · with_unfolding_all decide
  · with_unfolding_all decide

/-- Claim C4 counterexample: a concrete asset passing every hard gate
the claim lists, with volatility contraction holding (late-half range
zero), whose volume nevertheless collapses (recent median 100 vs older
median 1000).  The claim says "contraction OR stable volume" suffices;
the code rejects it — the volume-stability test is a hard gate that
contraction cannot replace. -/
def cexPts : List Point :=
  (List.range 30).map (fun i =>
    ⟨60000 + (i : Int) * 1000,
     if i < 15 then (if i % 2 = 0 then 100 else 104) else 102,
     some (if i < 15 then 1000 else 100), 0⟩)

def cexHistory : History :=
  [("alt", cexPts), ("bitcoin", witBtcPts)]

theorem tier0_contraction_not_sufficient :
    tier0_hard_gates cexHistory "alt" "bitcoin" 400000 100000000 20000000 4 ∧
    tier0_contraction_phase ((tier0_window cexHistory "alt" 400000 4).map (·.p)) = some true ∧
    tier0_quiet_accum cexHistory "alt" 400000 100000000 20000000 = none := by
  refine ⟨by with_unfolding_all decide, by with_unfolding_all decide,
    by with_unfolding_all decide⟩

/-! ## Per-block facts about the candidate loop -/

theorem tier0Block_tier {history : History} {cds : Cooldowns} {now : Int}
    {cid name sym link : String} {rank : Int} {vol_now mcap : ℚ} :
    ∀ x ∈ tier0Block history cds now cid name sym link rank vol_now mcap,
      x.tier = "t0" := by
  intro x hx
  unfold tier0Block at hx
  split at hx
  · split at hx
    · simp only [List.mem_singleton] at hx
      rw [hx]
    · cases hx
  · cases hx

theorem tier1Block_tier {history : History} {cds : Cooldowns} {now : Int}
    {cid name sym link : String} {rank : Int} {c24 btc24 vol_now mcap outperf : ℚ}
    {skip : Bool} :
    ∀ x ∈ tier1Block history cds now cid name sym link rank c24 btc24 vol_now mcap
        outperf skip, x.tier = "t1" := by
  intro x hx
  unfold tier1Block at hx
  split at hx
  · cases hx
  split at hx
  · split at hx
    · simp only [List.mem_singleton] at hx
      rw [hx]
    · cases hx
  · cases hx

theorem tier2Block_tier {history : History} {cds : Cooldowns} {now : Int}
    {cid name sym link : String} {rank : Int} {c24 c1h btc24 vol_now mcap outperf : ℚ}
    {skip : Bool} :
    ∀ x ∈ tier2Block history cds now cid name sym link rank c24 c1h btc24 vol_now mcap
        outperf skip, x.tier = "t2" := by
  intro x hx
  unfold tier2Block at hx
  split at hx
  · cases hx
  split at hx
  · split at hx
    · simp only [List.mem_singleton] at hx
      rw [hx]
    · cases hx
  · cases hx

theorem tier3Block_tier {cds : Cooldowns} {now : Int}
    {cid name sym link : String} {rank : Int} {c24 c1h btc24 vol_now mcap outperf : ℚ} :
    ∀ x ∈ tier3Block cds now cid name sym link rank c24 c1h btc24 vol_now mcap outperf,
      x.tier = "t3" := by
  intro x hx
  unfold tier3Block at hx
  split at hx
  · split at hx
    · simp only [List.mem_singleton] at hx
      rw [hx]
    · cases hx
  · cases hx

theorem tier0Block_nil_of_cooldown {history : History} {cds : Cooldowns} {now : Int}
    {cid name sym link : String} {rank : Int} {vol_now mcap : ℚ}
    (h : now - cdGet cds.t0 cid < COOLDOWN_T0) :
    tier0Block history cds now cid name sym link rank vol_now mcap = [] := by
  unfold tier0Block
  rw [if_neg (not_le.mpr h)]

theorem tier1Block_nil_of_cooldown {history : History} {cds : Cooldowns} {now : Int}
    {cid name sym link : String} {rank : Int} {c24 btc24 vol_now mcap outperf : ℚ}
    {skip : Bool} (h : now - cdGet cds.t1 cid < COOLDOWN_T1) :
    tier1Block history cds now cid name sym link rank c24 btc24 vol_now mcap
      outperf skip = [] := by
  unfold tier1Block
  split
  · rfl
  · rw [if_neg (not_le.mpr h)]

theorem tier2Block_nil_of_cooldown {history : History} {cds : Cooldowns} {now : Int}
    {cid name sym link : String} {rank : Int} {c24 c1h btc24 vol_now mcap outperf : ℚ}
    {skip : Bool} (h : now - cdGet cds.t2 cid < COOLDOWN_T2) :
    tier2Block history cds now cid name sym link rank c24 c1h btc24 vol_now mcap
      outperf skip = [] := by
  unfold tier2Block
  split
  · rfl
  · rw [if_neg (not_le.mpr h)]

theorem tier3Block_nil_of_cooldown {cds : Cooldowns} {now : Int}
    {cid name sym link : String} {rank : Int} {c24 c1h btc24 vol_now mcap outperf : ℚ}
    (h : now - cdGet cds.t3 cid < COOLDOWN_T3) :
    tier3Block cds now cid name sym link rank c24 c1h btc24 vol_now mcap outperf = [] := by
  unfold tier3Block
  rw [if_neg (not_le.mpr h)]

/-! ## Claim C1: cooldown enforcement -/

theorem coinCandidates_no_tier_of_cooldown (history : History) (cds : Cooldowns)
    (now : Int) (btc24 : ℚ) (skip : Bool) (c : Market) (A : String) (T : Tier)
    (hid : c.id = some A)
    (hcool : now - cdGet (tierLedger cds T) A < tierCooldown T) :
    ∀ x ∈ coinCandidates history cds now btc24 skip c, x.tier ≠ tierLabel T := by
  intro x hx
  rcases hrank : c.market_cap_rank with _ | rank
  · simp [coinCandidates, hid, hrank] at hx
  rcases hc24 : c.c24 with _ | c24
  · simp [coinCandidates, hid, hrank, hc24] at hx
  simp only [coinCandidates, hid, hrank, hc24, List.mem_append] at hx
  cases T with
  | t0 =>
    rcases hx with ((h | h) | h) | h
    · rw [tier0Block_nil_of_cooldown hcool] at h
      cases h
    · have := tier1Block_tier x h
      intro he; rw [this] at he; exact absurd he (by decide)
    · have := tier2Block_tier x h
      intro he; rw [this] at he; exact absurd he (by decide)
    · have := tier3Block_tier x h
      intro he; rw [this] at he; exact absurd he (by decide)
  | t1 =>
    rcases hx with ((h | h) | h) | h
    · have := tier0Block_tier x h
      intro he; rw [this] at he; exact absurd he (by decide)
    · rw [tier1Block_nil_of_cooldown hcool] at h
      cases h
    · have := tier2Block_tier x h
      intro he; rw [this] at he; exact absurd he (by decide)
    · have := tier3Block_tier x h
      intro he; rw [this] at he; exact absurd he (by decide)
  | t2 =>
    rcases hx with ((h | h) | h) | h
    · have := tier0Block_tier x h
      intro he; rw [this] at he; exact absurd he (by decide)
    · have := tier1Block_tier x h
      intro he; rw [this] at he; exact absurd he (by decide)
    · rw [tier2Block_nil_of_cooldown hcool] at h
      cases h
    · have := tier3Block_tier x h
      intro he; rw [this] at he; exact absurd he (by decide)
  | t3 =>
    rcases hx with ((h | h) | h) | h
    · have := tier0Block_tier x h
      intro he; rw [this] at he; exact absurd he (by decide)
    · have := tier1Block_tier x h
      intro he; rw [this] at he; exact absurd he (by decide)
    · have := tier2Block_tier x h
      intro he; rw [this] at he; exact absurd he (by decide)
    · rw [tier3Block_nil_of_cooldown hcool] at h
      cases h

theorem admit_sent_mem (now : Int) :
    ∀ (cands : List Cand) (acc : AdmitAcc) (x : Cand),
      x ∈ (cands.foldl (admitStep now) acc).sent → x ∈ acc.sent ∨ x ∈ cands := by
  intro cands
  induction cands with
  | nil => intro acc x hx; exact Or.inl hx
  | cons c rest ih =>
    intro acc x hx
    rw [List.foldl_cons] at hx
    rcases ih _ x hx with h | h
    · unfold admitStep at h
      split at h
      · exact Or.inl h
      · simp only [List.mem_append, List.mem_singleton] at h
        rcases h with h | h
        · exact Or.inl h
        · exact Or.inr (by simp [h])
    · exact Or.inr (List.mem_cons_of_mem _ h)

/-- Claim C1: if the ledger for tier `T` holds a stamp within `T`'s
cooldown of `now` for asset `A`, then (i) the per-coin loop produces no
tier-`T` candidate from any record with id `A` — for all histories and
snapshot fields, i.e. regardless of what the detector or scorer would
say, because the cooldown test short-circuits the block — and (ii) the
admission loop only ever admits candidates taken from its input, so no
such candidate can be admitted either. -/
theorem cooldown_enforced :
    (∀ (history : History) (cds : Cooldowns) (now : Int) (btc24 : ℚ) (skip : Bool)
        (c : Market) (A : String) (T : Tier),
        c.id = some A →
        now - cdGet (tierLedger cds T) A < tierCooldown T →
        ∀ x ∈ coinCandidates history cds now btc24 skip c, x.tier ≠ tierLabel T) ∧
    (∀ (now : Int) (cands : List Cand) (acc : AdmitAcc) (x : Cand),
        x ∈ (cands.foldl (admitStep now) acc).sent → x ∈ acc.sent ∨ x ∈ cands) :=
  ⟨coinCandidates_no_tier_of_cooldown, admit_sent_mem⟩

def mktW : Market :=
  { id := some "aaa", name := some "Aaa", symbol := some "aaa",
    market_cap_rank := some 1, current_price := some 1,
    total_volume := some 60000000, market_cap := some 1000000000,
    c24 := some 20, c1h := some 2 }

def cdsW : Cooldowns := ⟨[], [], [], [("aaa", 999900)]⟩

def candW : Cand := ⟨3, "t3", "Link: https://www.coingecko.com/en/coins/abc"⟩

/-- Concrete instance of `cooldown_enforced`: asset `"aaa"` fired Tier 3
100 seconds ago (cooldown 3h), and although its snapshot passes every
Tier 3 threshold, no Tier 3 candidate is produced for it; and an
admitted alert always comes from the candidate list. -/
theorem cooldown_enforced_witness :
    Cand.mk 3 "t3" "m" ∉ coinCandidates [] cdsW 1000000 0 false mktW ∧
    (candW ∈ (AdmitAcc.mk [] ⟨[], [], [], []⟩ []).sent ∨ candW ∈ [candW]) := by
  constructor
  · intro hmem
    exact cooldown_enforced.1 [] cdsW 1000000 0 false mktW "aaa" Tier.t3 rfl
      (by decide) _ hmem rfl
  · exact cooldown_enforced.2 1000000 [candW] ⟨[], ⟨[], [], [], []⟩, []⟩ candW
      (by with_unfolding_all decide)

/-! ## Claim C2: rate cap -/

theorem admit_foldl_spec (now : Int) :
    ∀ (cands : List Cand) (acc : AdmitAcc),
      ∃ new : List Cand,
        (cands.foldl (admitStep now) acc).sent = acc.sent ++ new ∧
        (cands.foldl (admitStep now) acc).recent =
          acc.recent ++ List.replicate new.length now ∧
        (new.filter (fun x => !(isOverrideC x))).length ≤
          MAX_ALERTS_PER_HOUR - acc.recent.length := by
  intro cands
  induction cands with
  | nil =>
    intro acc
    exact ⟨[], by simp, by simp, by simp⟩
  | cons c rest ih =>
    intro acc
    rw [List.foldl_cons]
    by_cases hskip : MAX_ALERTS_PER_HOUR ≤ acc.recent.length ∧ isOverrideC c = false
    · rw [show admitStep now acc c = acc from by unfold admitStep; rw [if_pos hskip]]
      exact ih acc
    · rw [show admitStep now acc c =
          ⟨acc.recent ++ [now], cooldownUpdate acc.cds c.tier c.msg now, acc.sent ++ [c]⟩
        from by unfold admitStep; rw [if_neg hskip]]
      obtain ⟨new, hsent, hrecent, hbound⟩ :=
        ih ⟨acc.recent ++ [now], cooldownUpdate acc.cds c.tier c.msg now, acc.sent ++ [c]⟩
      refine ⟨c :: new, ?_, ?_, ?_⟩
      · rw [hsent]; simp
      · rw [hrecent]
        simp [List.replicate_succ, List.append_assoc]
      · simp only [List.length_append, List.length_singleton] at hbound
        simp only [MAX_ALERTS_PER_HOUR] at hbound ⊢
        cases hov : isOverrideC c with
        | true =>
          rw [List.filter_cons_of_neg (by simp [hov])]
          omega
        | false =>
          have hlen : acc.recent.length < 5 := by
            by_contra hge
            exact hskip ⟨by simpa [MAX_ALERTS_PER_HOUR] using not_lt.mp hge, hov⟩
          rw [List.filter_cons_of_pos (by simp [hov])]
          simp only [List.length_cons]
          omega

/-- Claim C2: the rate window used in a pass drops entries an hour old
or older at the start; every admitted alert appends its send timestamp
(`now`) to the window; and past the 5-alert cap, only Tier 1 candidates
with score ≥ 8 are admitted — the number of admitted non-override
alerts is bounded by however much room the cap leaves in the cleaned
window (zero once it holds 5 or more entries). -/
theorem rate_cap (st : BotState) (markets : List Market) (now : Int) :
    (runOnce st markets now).1.recent =
      st.recent.filter (fun t => decide (now - t < 3600)) ++
        List.replicate (runOnce st markets now).2.length now ∧
    ((runOnce st markets now).2.filter (fun x => !(isOverrideC x))).length ≤
      MAX_ALERTS_PER_HOUR -
        (st.recent.filter (fun t => decide (now - t < 3600))).length := by
  obtain ⟨new, hsent, hrecent, hbound⟩ :=
    admit_foldl_spec now
      (sortDesc (passCandidates (updateHistory st.history markets now) st.cds now
        (extract_btc_24h markets)
        (skipFlag (updateHistory st.history markets now) now) markets))
      ⟨st.recent.filter (fun t => decide (now - t < 3600)), st.cds, []⟩
  have e1 : (runOnce st markets now).1.recent =
      ((sortDesc (passCandidates (updateHistory st.history markets now) st.cds now
        (extract_btc_24h markets)
        (skipFlag (updateHistory st.history markets now) now) markets)).foldl
          (admitStep now)
          ⟨st.recent.filter (fun t => decide (now - t < 3600)), st.cds, []⟩).recent := rfl
  have e2 : (runOnce st markets now).2 =
      ((sortDesc (passCandidates (updateHistory st.history markets now) st.cds now
        (extract_btc_24h markets)
        (skipFlag (updateHistory st.history markets now) now) markets)).foldl
          (admitStep now)
          ⟨st.recent.filter (fun t => decide (now - t < 3600)), st.cds, []⟩).sent := rfl
  rw [e1, e2, hsent, hrecent]
  refine ⟨by simp, by simpa using hbound⟩

/-! ## Claim C7: market-context breaker -/

theorem tier1Block_skip {history : History} {cds : Cooldowns} {now : Int}
    {cid name sym link : String} {rank : Int} {c24 btc24 vol_now mcap outperf : ℚ} :
    tier1Block history cds now cid name sym link rank c24 btc24 vol_now mcap
      outperf true = [] := rfl

theorem tier2Block_skip {history : History} {cds : Cooldowns} {now : Int}
    {cid name sym link : String} {rank : Int} {c24 c1h btc24 vol_now mcap outperf : ℚ} :
    tier2Block history cds now cid name sym link rank c24 c1h btc24 vol_now mcap
      outperf true = [] := rfl

theorem coinCandidates_skip_filter (history : History) (cds : Cooldowns) (now : Int)
    (btc24 : ℚ) (c : Market) :
    coinCandidates history cds now btc24 true c =
      (coinCandidates history cds now btc24 false c).filter
        (fun x => x.tier == "t0" || x.tier == "t3") := by
  rcases hid : c.id with _ | cid
  · simp [coinCandidates, hid]
  rcases hrank : c.market_cap_rank with _ | rank
  · simp [coinCandidates, hid, hrank]
  rcases hc24 : c.c24 with _ | c24
  · simp [coinCandidates, hid, hrank, hc24]
  simp only [coinCandidates, hid, hrank, hc24]
  rw [tier1Block_skip, tier2Block_skip,
      List.filter_append, List.filter_append, List.filter_append]
  rw [List.filter_eq_self.mpr
      (fun a ha => by rw [tier0Block_tier a ha]; rfl),
      List.filter_eq_nil_iff.mpr
      (fun a ha => by rw [tier1Block_tier a ha]; decide),
      List.filter_eq_nil_iff.mpr
      (fun a ha => by rw [tier2Block_tier a ha]; decide),
      List.filter_eq_self.mpr
      (fun a ha => by rw [tier3Block_tier a ha]; rfl)]

theorem passCandidates_skip_filter (history : History) (cds : Cooldowns) (now : Int)
    (btc24 : ℚ) (markets : List Market) :
    passCandidates history cds now btc24 true markets =
      (passCandidates history cds now btc24 false markets).filter
        (fun x => x.tier == "t0" || x.tier == "t3") := by
  unfold passCandidates
  induction markets with
  | nil => rfl
  | cons m rest ih =>
    rw [List.flatMap_cons, List.flatMap_cons, List.filter_append,
        coinCandidates_skip_filter, ih]

/-- Claim C7: whenever bitcoin's 24h trend computed from stored history
is below −5%, the pass's candidate list is exactly the unsuppressed list
restricted to Tier 0 and Tier 3 — Tier 1 and Tier 2 produce nothing for
any asset, while Tier 0 and Tier 3 detection is unaffected. -/
theorem btc_breaker (st : BotState) (markets : List Market) (now : Int) (v : ℚ)
    (hv : btcTrend (updateHistory st.history markets now) now = some v)
    (hlt : v < MIN_BTC_TREND) :
    passCandidates (updateHistory st.history markets now) st.cds now
        (extract_btc_24h markets)
        (skipFlag (updateHistory st.history markets now) now) markets =
      (passCandidates (updateHistory st.history markets now) st.cds now
        (extract_btc_24h markets) false markets).filter
        (fun x => x.tier == "t0" || x.tier == "t3") ∧
    ∀ x ∈ passCandidates (updateHistory st.history markets now) st.cds now
        (extract_btc_24h markets)
        (skipFlag (updateHistory st.history markets now) now) markets,
      x.tier ≠ "t1" ∧ x.tier ≠ "t2" := by
  have hskip : skipFlag (updateHistory st.history markets now) now = true := by
    simp only [skipFlag, hv]
    exact decide_eq_true hlt
  rw [hskip]
  refine ⟨passCandidates_skip_filter _ _ _ _ _, ?_⟩
  intro x hx
  rw [passCandidates_skip_filter] at hx
  have hp := List.of_mem_filter hx
  constructor <;> intro he <;> rw [he] at hp <;> simp at hp

def btcDropState : BotState :=
  ⟨[("bitcoin", [⟨999000, 100, some 1000, 0⟩, ⟨999500, 90, some 1000, 0⟩])],
   ⟨[], [], [], []⟩, []⟩

/-- Concrete instance of `btc_breaker`: bitcoin down 10% over its stored
24h window while an altcoin snapshot passes every Tier 3 threshold: the
pass's candidates equal the unsuppressed candidates filtered to
Tier 0/Tier 3. -/
theorem btc_breaker_witness :
    passCandidates (updateHistory btcDropState.history [mktW] 1000000)
        btcDropState.cds 1000000 (extract_btc_24h [mktW])
        (skipFlag (updateHistory btcDropState.history [mktW] 1000000) 1000000) [mktW] =
      (passCandidates (updateHistory btcDropState.history [mktW] 1000000)
        btcDropState.cds 1000000 (extract_btc_24h [mktW]) false [mktW]).filter
        (fun x => x.tier == "t0" || x.tier == "t3") :=
  (btc_breaker btcDropState [mktW] 1000000 (-10)
    (by with_unfolding_all decide) (by norm_num [MIN_BTC_TREND])).1

/-! ## Claim C9: parsing the coin id back out of a message

Character-level analysis.  The URL stem starts with `'h'`, its only
`'h'` is at position 0, and `'h'` is always followed by `'t'` — so an
occurrence of the stem can only start at an `'h'` that `'t'` follows,
which pins down where the stem can appear in a rendered message. -/

/-- No occurrence of `sep` starts before index `n` of `s`. -/
def noOccBefore (sep s : List Char) (n : Nat) : Prop :=
  ∀ i < n, leadsWith sep (s.drop i) = false

/-- No occurrence of `sep` starts anywhere in `s`. -/
def noOccIn (sep s : List Char) : Prop :=
  ∀ i, leadsWith sep (s.drop i) = false

theorem leadsWith_self_append (sep b : List Char) :
    leadsWith sep (sep ++ b) = true := by
  induction sep with
  | nil => rfl
  | cons a as ih => simp [leadsWith, ih]

theorem leadsWith_head {sep s : List Char} {a c : Char}
    (hsep : sep.head? = some a) (h : leadsWith sep (c :: s) = true) : c = a := by
  cases sep with
  | nil => cases hsep
  | cons b bs =>
    simp only [List.head?_cons, Option.some_inj] at hsep
    simp only [leadsWith, Bool.and_eq_true, beq_iff_eq] at h
    rw [← h.1]
    exact hsep

theorem leadsWith_two {sep s : List Char} {a b c d : Char}
    (h0 : sep.head? = some a) (h1 : sep.tail.head? = some b)
    (h : leadsWith sep (c :: d :: s) = true) : c = a ∧ d = b := by
  cases sep with
  | nil => cases h0
  | cons x xs =>
    cases xs with
    | nil => cases h1
    | cons y ys =>
      simp only [List.head?_cons, Option.some_inj, List.tail_cons] at h0 h1
      simp only [leadsWith, Bool.and_eq_true, beq_iff_eq] at h
      exact ⟨by rw [← h.1]; exact h0, by rw [← h.2.1]; exact h1⟩

theorem leadsWith_nil {sep : List Char} (h : sep ≠ []) : leadsWith sep [] = false := by
  cases sep with
  | nil => exact absurd rfl h
  | cons a as => rfl

theorem leadsWith_append_left : ∀ {sep a b : List Char},
    leadsWith sep (a ++ b) = true → sep.length ≤ a.length → leadsWith sep a = true := by
  intro sep
  induction sep with
  | nil => intros; rfl
  | cons s ss ih =>
    intro a b h hlen
    cases a with
    | nil => simp at hlen
    | cons x a' =>
      simp only [List.cons_append, leadsWith, Bool.and_eq_true] at h ⊢
      refine ⟨h.1, ih h.2 ?_⟩
      simpa using hlen

theorem leadsWith_append_drop : ∀ (a : List Char) {sep b : List Char},
    leadsWith sep (a ++ b) = true → leadsWith (sep.drop a.length) b = true := by
  intro a
  induction a with
  | nil =>
    intro sep b h
    simpa using h
  | cons x a' ih =>
    intro sep b h
    cases sep with
    | nil => rfl
    | cons s ss =>
      simp only [List.cons_append, leadsWith, Bool.and_eq_true] at h
      simpa using ih h.2

theorem linkStem_head : linkStem.data.head? = some 'h' := by decide

theorem linkStem_second : linkStem.data.tail.head? = some 't' := by decide

theorem linkStem_ne_nil : linkStem.data ≠ [] := by decide

/-- A segment none of whose characters is `'h'` cannot start an
occurrence of the URL stem. -/
theorem noOccBefore_of_no_h {f : List Char} (hf : ∀ c ∈ f, c ≠ 'h') (rest : List Char) :
    noOccBefore linkStem.data (f ++ rest) f.length := by
  intro i hi
  have hsplit : (f ++ rest).drop i = f.drop i ++ rest := by
    rw [List.drop_append_eq_append_drop]
    have h0 : i - f.length = 0 := by omega
    rw [h0, List.drop_zero]
  rw [hsplit]
  cases hfd : f.drop i with
  | nil =>
    have := congrArg List.length hfd
    simp only [List.length_drop, List.length_nil] at this
    omega
  | cons d ds =>
    have hd : d ∈ f := List.drop_subset i f (hfd ▸ List.mem_cons_self d ds)
    by_contra hcon
    rw [Bool.not_eq_false, List.cons_append] at hcon
    exact hf d hd (leadsWith_head linkStem_head hcon)

/-- Guard for fixed message text: every `'h'` is followed, inside the
segment, by a character other than `'t'`. -/
def hSegOk : List Char → Bool
  | [] => true
  | c :: rest =>
    (if c == 'h' then
       match rest with
       | [] => false
       | c' :: _ => !(c' == 't')
     else true) && hSegOk rest

theorem seg_fixed : ∀ (f : List Char), hSegOk f = true → ∀ (rest : List Char),
    noOccBefore linkStem.data (f ++ rest) f.length := by
  intro f
  induction f with
  | nil =>
    intro _ rest i hi
    simp at hi
  | cons c f' ih =>
    intro hok rest i hi
    simp only [hSegOk, Bool.and_eq_true] at hok
    obtain ⟨hguard, hok'⟩ := hok
    cases i with
    | zero =>
      rw [List.drop_zero, List.cons_append]
      by_contra hcon
      rw [Bool.not_eq_false] at hcon
      have hc : c = 'h' := leadsWith_head linkStem_head hcon
      rw [if_pos (by simp [hc])] at hguard
      cases f' with
      | nil => cases hguard
      | cons c' f'' =>
        have h2 : c = 'h' ∧ c' = 't' :=
          leadsWith_two linkStem_head linkStem_second (by simpa using hcon)
        simp [h2.2] at hguard
    | succ i' =>
      rw [List.cons_append, List.drop_succ_cons]
      refine ih hok' rest i' ?_
      simp only [List.length_cons] at hi
      omega

theorem noOccBefore_append {sep : List Char} (a s : List Char) (n : Nat)
    (h1 : noOccBefore sep (a ++ s) a.length) (h2 : noOccBefore sep s n) :
    noOccBefore sep (a ++ s) (a.length + n) := by
  intro i hi
  by_cases hia : i < a.length
  · exact h1 i hia
  · have hdrop : (a ++ s).drop i = s.drop (i - a.length) := by
      rw [List.drop_append_eq_append_drop]
      have h0 : a.drop i = [] := List.drop_eq_nil_of_le (by omega)
      rw [h0, List.nil_append]
    rw [hdrop]
    exact h2 (i - a.length) (by omega)

/-- A segment that no occurrence of the stem can start in, whatever
follows it. -/
def SafeSeg (s : List Char) : Prop :=
  ∀ rest, noOccBefore linkStem.data (s ++ rest) s.length

/-- Like `SafeSeg`, but only when the following text starts with the
given character. -/
def SafeSegThen (s : List Char) (c0 : Char) : Prop :=
  ∀ rest, rest.head? = some c0 → noOccBefore linkStem.data (s ++ rest) s.length

theorem safeSeg_append {a b : List Char} (ha : SafeSeg a) (hb : SafeSeg b) :
    SafeSeg (a ++ b) := by
  intro rest
  rw [List.append_assoc, List.length_append]
  exact noOccBefore_append a (b ++ rest) b.length (ha (b ++ rest)) (hb rest)

theorem safeSegThen_append {a b : List Char} {c0 : Char}
    (ha : SafeSegThen a c0) (hhead : b.head? = some c0) (hb : SafeSeg b) :
    SafeSeg (a ++ b) := by
  intro rest
  rw [List.append_assoc, List.length_append]
  have hh : (b ++ rest).head? = some c0 := by
    cases b with
    | nil => cases hhead
    | cons x xs => simpa using hhead
  exact noOccBefore_append a (b ++ rest) b.length (ha (b ++ rest) hh) (hb rest)

theorem safeSeg_fixed {f : List Char} (h : hSegOk f = true) : SafeSeg f :=
  fun rest => seg_fixed f h rest

theorem safeSeg_no_h {f : List Char} (h : ∀ c ∈ f, c ≠ 'h') : SafeSeg f :=
  fun rest => noOccBefore_of_no_h h rest

/-- A segment that contains no occurrence of the stem and is followed by
a character outside the stem cannot start an occurrence either: a
spanning occurrence's continuation would begin with that character. -/
theorem safeSegThen_of_noOccIn {s : List Char} {c0 : Char}
    (hno : noOccIn linkStem.data s) (hc0 : c0 ∉ linkStem.data) :
    SafeSegThen s c0 := by
  intro rest hhead i hi
  have hsplit : (s ++ rest).drop i = s.drop i ++ rest := by
    rw [List.drop_append_eq_append_drop]
    have h0 : i - s.length = 0 := by omega
    rw [h0, List.drop_zero]
  rw [hsplit]
  by_contra hcon
  rw [Bool.not_eq_false] at hcon
  by_cases hk : linkStem.data.length ≤ (s.drop i).length
  · have := leadsWith_append_left hcon hk
    rw [hno i] at this
    cases this
  · have hdrop := leadsWith_append_drop (s.drop i) hcon
    cases hd : linkStem.data.drop (s.drop i).length with
    | nil =>
      have hlen := congrArg List.length hd
      have hstem : linkStem.data.length = 35 := by decide
      have hk' : ¬(linkStem.data.length ≤ s.length - i) := by
        simpa [List.length_drop] using hk
      simp only [List.length_drop, List.length_nil] at hlen
      omega
    | cons d ds =>
      rw [hd] at hdrop
      have hdm : d ∈ linkStem.data :=
        List.drop_subset _ _ (hd ▸ List.mem_cons_self d ds)
      cases rest with
      | nil =>
        rw [leadsWith_nil (by simp)] at hdrop
        cases hdrop
      | cons r rs =>
        have hr : r = d := leadsWith_head (show (d :: ds).head? = some d from rfl) hdrop
        simp only [List.head?_cons, Option.some_inj] at hhead
        rw [← hhead, hr] at hc0
        exact hc0 hdm

theorem noOccIn_of_containsSeq_false {s sub : List Char}
    (h : containsSeq s sub = false) : noOccIn sub s := by
  intro i
  induction s generalizing i with
  | nil =>
    rw [List.drop_nil]
    unfold containsSeq at h
    simp only [Bool.or_eq_false_iff] at h
    exact h.1
  | cons c cs ih =>
    unfold containsSeq at h
    simp only [Bool.or_eq_false_iff] at h
    cases i with
    | zero => rw [List.drop_zero]; exact h.1
    | succ i' => rw [List.drop_succ_cons]; exact ih h.2 i'

theorem noOccIn_append {a b : List Char} {c0 : Char}
    (ha : noOccIn linkStem.data a) (hhead : b.head? = some c0)
    (hc0 : c0 ∉ linkStem.data) (hb : noOccIn linkStem.data b) :
    noOccIn linkStem.data (a ++ b) := by
  intro i
  by_cases hia : i < a.length
  · exact safeSegThen_of_noOccIn ha hc0 b hhead i hia
  · have hdrop : (a ++ b).drop i = b.drop (i - a.length) := by
      rw [List.drop_append_eq_append_drop]
      have h0 : a.drop i = [] := List.drop_eq_nil_of_le (by omega)
      rw [h0, List.nil_append]
    rw [hdrop]
    exact hb _

theorem afterFirstOcc_append (a b : List Char)
    (h : noOccBefore linkStem.data (a ++ (linkStem.data ++ b)) a.length) :
    afterFirstOcc linkStem.data (a ++ (linkStem.data ++ b)) = some b := by
  induction a with
  | nil =>
    rw [List.nil_append]
    cases hcase : linkStem.data ++ b with
    | nil => exact absurd hcase (List.append_ne_nil_of_left_ne_nil linkStem_ne_nil _)
    | cons x xs =>
      rw [← hcase]
      rw [show afterFirstOcc linkStem.data (linkStem.data ++ b) =
          if leadsWith linkStem.data (linkStem.data ++ b) = true then
            some ((linkStem.data ++ b).drop linkStem.data.length)
          else afterFirstOcc linkStem.data xs from by rw [hcase]; rfl]
      rw [if_pos (leadsWith_self_append _ _)]
      rw [List.drop_left]
  | cons c a' ih =>
    rw [List.cons_append]
    have h0 : leadsWith linkStem.data (c :: (a' ++ (linkStem.data ++ b))) = false := by
      have := h 0 (by simp)
      simpa using this
    rw [show afterFirstOcc linkStem.data (c :: (a' ++ (linkStem.data ++ b))) =
        if leadsWith linkStem.data (c :: (a' ++ (linkStem.data ++ b))) = true then
          some ((c :: (a' ++ (linkStem.data ++ b))).drop linkStem.data.length)
        else afterFirstOcc linkStem.data (a' ++ (linkStem.data ++ b)) from rfl]
    rw [if_neg (by simp [h0])]
    refine ih ?_
    intro i hi
    have := h (i + 1) (by simp only [List.length_cons]; omega)
    simpa using this

theorem upToFirstOcc_of_noOccIn {s : List Char} (h : noOccIn linkStem.data s) :
    upToFirstOcc linkStem.data s = s := by
  induction s with
  | nil => rfl
  | cons c cs ih =>
    have h0 : leadsWith linkStem.data (c :: cs) = false := by simpa using h 0
    rw [show upToFirstOcc linkStem.data (c :: cs) =
        if leadsWith linkStem.data (c :: cs) = true then []
        else c :: upToFirstOcc linkStem.data cs from rfl]
    rw [if_neg (by simp [h0])]
    rw [ih (fun i => by simpa using h (i + 1))]

theorem takeWhile_eq_self_of_all {p : Char → Bool} {a : List Char}
    (ha : ∀ c ∈ a, p c = true) : a.takeWhile p = a := by
  induction a with
  | nil => rfl
  | cons x a' ih =>
    rw [List.takeWhile_cons, if_pos (ha x (by simp))]
    rw [ih (fun c hc => ha c (by simp [hc]))]

theorem takeWhile_append_stop {p : Char → Bool} {a b : List Char} {c0 : Char}
    (ha : ∀ c ∈ a, p c = true) (hb : b.head? = some c0) (hc : p c0 = false) :
    (a ++ b).takeWhile p = a := by
  induction a with
  | nil =>
    cases b with
    | nil => cases hb
    | cons x xs =>
      simp only [List.head?_cons, Option.some_inj] at hb
      subst hb
      simp [List.takeWhile_cons, hc]
  | cons x a' ih =>
    rw [List.cons_append, List.takeWhile_cons, if_pos (ha x (by simp))]
    rw [ih (fun c hc' => ha c (by simp [hc']))]

theorem safeSeg_tail {c : Char} {a : List Char} (h : SafeSeg (c :: a)) : SafeSeg a := by
  intro rest i hi
  have := h rest (i + 1) (by simp only [List.length_cons]; omega)
  simpa using this

theorem safeSegThen_tail {c0 c : Char} {a : List Char} (h : SafeSegThen (c :: a) c0) :
    SafeSegThen a c0 := by
  intro rest hhead i hi
  have := h rest hhead (i + 1) (by simp only [List.length_cons]; omega)
  simpa using this

theorem afterFirstOcc_self (b : List Char) :
    afterFirstOcc linkStem.data (linkStem.data ++ b) = some b := by
  cases hcase : linkStem.data ++ b with
  | nil => exact absurd hcase (List.append_ne_nil_of_left_ne_nil linkStem_ne_nil _)
  | cons x xs =>
    rw [show afterFirstOcc linkStem.data (x :: xs) =
        if leadsWith linkStem.data (x :: xs) = true then
          some ((x :: xs).drop linkStem.data.length)
        else afterFirstOcc linkStem.data xs from rfl]
    rw [if_pos (by rw [← hcase]; exact leadsWith_self_append _ _)]
    rw [← hcase, List.drop_left]

theorem afterFirstOcc_skip {s r : List Char} : ∀ (a : List Char), SafeSeg a →
    afterFirstOcc linkStem.data s = some r →
    afterFirstOcc linkStem.data (a ++ s) = some r := by
  intro a
  induction a with
  | nil => intro _ h; simpa using h
  | cons c a' ih =>
    intro hsafe h
    rw [List.cons_append]
    have h0 : leadsWith linkStem.data (c :: (a' ++ s)) = false := by
      have := hsafe s 0 (by simp)
      simpa using this
    rw [show afterFirstOcc linkStem.data (c :: (a' ++ s)) =
        if leadsWith linkStem.data (c :: (a' ++ s)) = true then
          some ((c :: (a' ++ s)).drop linkStem.data.length)
        else afterFirstOcc linkStem.data (a' ++ s) from rfl]
    rw [if_neg (by simp [h0])]
    exact ih (safeSeg_tail hsafe) h

theorem afterFirstOcc_skip_then {s r : List Char} {c0 : Char} :
    ∀ (a : List Char), SafeSegThen a c0 → s.head? = some c0 →
    afterFirstOcc linkStem.data s = some r →
    afterFirstOcc linkStem.data (a ++ s) = some r := by
  intro a
  induction a with
  | nil => intro _ _ h; simpa using h
  | cons c a' ih =>
    intro hsafe hhead h
    rw [List.cons_append]
    have h0 : leadsWith linkStem.data (c :: (a' ++ s)) = false := by
      have := hsafe s hhead 0 (by simp)
      simpa using this
    rw [show afterFirstOcc linkStem.data (c :: (a' ++ s)) =
        if leadsWith linkStem.data (c :: (a' ++ s)) = true then
          some ((c :: (a' ++ s)).drop linkStem.data.length)
        else afterFirstOcc linkStem.data (a' ++ s) from rfl]
    rw [if_neg (by simp [h0])]
    exact ih (safeSegThen_tail hsafe) hhead h

theorem head?_append_left {a b : List Char} {c : Char} (h : a.head? = some c) :
    (a ++ b).head? = some c := by
  cases a with
  | nil => cases h
  | cons x xs => simpa using h

theorem noOccIn_of_no_h {s : List Char} (hs : ∀ c ∈ s, c ≠ 'h') :
    noOccIn linkStem.data s := by
  intro i
  cases hd : s.drop i with
  | nil => exact leadsWith_nil linkStem_ne_nil
  | cons d ds =>
    by_contra hcon
    rw [Bool.not_eq_false] at hcon
    exact hs d (List.drop_subset _ _ (hd ▸ List.mem_cons_self d ds))
      (leadsWith_head linkStem_head hcon)

/-! Character sets of the rendered numbers: no `'h'` ever appears. -/

theorem decDigit_ne_h (n : Nat) : decDigit n ≠ 'h' := by
  unfold decDigit
  have h10 : n % 10 < 10 := Nat.mod_lt _ (by norm_num)
  revert h10
  generalize n % 10 = k
  intro h10
  interval_cases k <;> decide

theorem natDigitsAux_ne_h : ∀ (fuel n : Nat), ∀ c ∈ natDigitsAux fuel n, c ≠ 'h' := by
  intro fuel
  induction fuel with
  | zero => intro n c hc; cases hc
  | succ fuel ih =>
    intro n c hc
    simp only [natDigitsAux] at hc
    by_cases h : n < 10
    · rw [if_pos h] at hc
      simp only [List.mem_singleton] at hc
      exact hc ▸ decDigit_ne_h n
    · rw [if_neg h] at hc
      rcases List.mem_append.mp hc with h1 | h1
      · exact ih _ c h1
      · simp only [List.mem_singleton] at h1
        exact h1 ▸ decDigit_ne_h _

theorem natDigits_ne_h (n : Nat) : ∀ c ∈ natDigits n, c ≠ 'h' :=
  fun c hc => natDigitsAux_ne_h _ _ c hc

theorem natStr_ne_h (n : Nat) : ∀ c ∈ (natStr n).data, c ≠ 'h' :=
  fun c hc => natDigits_ne_h n c hc

theorem mem_append_ne_h {a b : List Char} (ha : ∀ c ∈ a, c ≠ 'h')
    (hb : ∀ c ∈ b, c ≠ 'h') : ∀ c ∈ a ++ b, c ≠ 'h' :=
  fun c hc => (List.mem_append.mp hc).elim (ha c) (hb c)

theorem intStr_ne_h (i : Int) : ∀ c ∈ (intStr i).data, c ≠ 'h' := by
  unfold intStr
  split
  · intro c hc
    rw [String.data_append] at hc
    rcases List.mem_append.mp hc with h | h
    · have : c = '-' := List.mem_singleton.mp h
      rw [this]; decide
    · exact natStr_ne_h _ c h
  · exact natStr_ne_h _

theorem commaRev_ne_h : ∀ (ds : List Char) (k : Nat), (∀ c ∈ ds, c ≠ 'h') →
    ∀ c ∈ commaRev k ds, c ≠ 'h' := by
  intro ds
  induction ds with
  | nil => intro k _ c hc; cases hc
  | cons d ds' ih =>
    intro k hds c hc
    simp only [commaRev] at hc
    split at hc
    · rcases List.mem_cons.mp hc with h | h
      · rw [h]; decide
      · rcases List.mem_cons.mp h with h' | h'
        · exact h' ▸ hds d (by simp)
        · exact ih (k + 1) (fun c' hc' => hds c' (by simp [hc'])) c h'
    · rcases List.mem_cons.mp hc with h | h
      · exact h ▸ hds d (by simp)
      · exact ih (k + 1) (fun c' hc' => hds c' (by simp [hc'])) c h

theorem commaDigits_ne_h (n : Nat) : ∀ c ∈ commaDigits n, c ≠ 'h' := by
  intro c hc
  unfold commaDigits at hc
  rw [List.mem_reverse] at hc
  exact commaRev_ne_h _ 0
    (fun c' hc' => natDigits_ne_h n c' (List.mem_reverse.mp hc')) c hc

theorem fmt_int_ne_h (x : ℚ) : ∀ c ∈ (fmt_int x).data, c ≠ 'h' := by
  intro c hc
  simp only [fmt_int] at hc
  split at hc
  · rw [String.data_append] at hc
    rcases List.mem_append.mp hc with h | h
    · have : c = '-' := List.mem_singleton.mp h
      rw [this]; decide
    · exact commaDigits_ne_h _ c h
  · exact commaDigits_ne_h _ c hc

theorem fmtFixed_ne_h (decs : Nat) (x : ℚ) : ∀ c ∈ (fmtFixed decs x).data, c ≠ 'h' := by
  intro c hc
  simp only [fmtFixed] at hc
  have hsign : ∀ c' ∈ (if x < 0 then "-" else "" : String).data, c' ≠ 'h' := by
    split
    · intro c' hc'
      have : c' = '-' := List.mem_singleton.mp hc'
      rw [this]; decide
    · intro c' hc'
      cases hc'
  split at hc
  · rw [String.data_append] at hc
    rcases List.mem_append.mp hc with h | h
    · exact hsign c h
    · exact natStr_ne_h _ c h
  · rw [String.data_append, String.data_append, String.data_append] at hc
    rcases List.mem_append.mp hc with h | h
    · rcases List.mem_append.mp h with h' | h'
      · rcases List.mem_append.mp h' with h'' | h''
        · exact hsign c h''
        · exact natStr_ne_h _ c h''
      · have : c = '.' := List.mem_singleton.mp h'
        rw [this]; decide
    · rcases List.mem_append.mp h with h' | h'
      · have : c = '0' := (List.eq_of_mem_replicate h')
        rw [this]; decide
      · exact natDigits_ne_h _ c h'

theorem volRatioTxt_ne_h (o : Option ℚ) : ∀ c ∈ (volRatioTxt o).data, c ≠ 'h' := by
  intro c hc
  cases o with
  | none =>
    have hna : ∀ c' ∈ (volRatioTxt none).data, c' ≠ 'h' := by decide
    exact hna c hc
  | some v =>
    simp only [volRatioTxt] at hc
    split at hc
    · have hna : ∀ c' ∈ ("n/a" : String).data, c' ≠ 'h' := by decide
      exact hna c hc
    · rw [String.data_append] at hc
      rcases List.mem_append.mp hc with h | h
      · exact fmtFixed_ne_h 2 v c h
      · have : c = 'x' := List.mem_singleton.mp h
        rw [this]; decide

theorem confidence_label_ne_h (s : ℚ) : ∀ c ∈ (confidence_label s).data, c ≠ 'h' := by
  unfold confidence_label
  split
  · decide
  split
  · decide
  split
  · decide
  · decide

/-! Round-trip of the coin id through each rendered message template. -/

theorem parse_T3 (name sym cid : String) (rank : Int) (c24 c1h outperf vol mcap : ℚ)
    (hname : containsSeq name.data linkStem.data = false)
    (hsym : containsSeq sym.data linkStem.data = false)
    (hcid : containsSeq cid.data linkStem.data = false)
    (hnl : '\n' ∉ cid.data)
    (hstrip : pyStrip cid.data = cid.data) :
    parseCoinId (mkMsgT3 name sym rank c24 c1h outperf vol mcap (linkStem ++ cid)) =
      some cid := by
  have haft : afterFirstOcc linkStem.data
      (mkMsgT3 name sym rank c24 c1h outperf vol mcap (linkStem ++ cid)).data =
      some cid.data := by
    simp only [mkMsgT3, String.data_append, List.append_assoc]
    refine afterFirstOcc_skip _ (safeSeg_fixed (by decide)) ?_
    refine afterFirstOcc_skip _ (safeSeg_fixed (by decide)) ?_
    refine afterFirstOcc_skip_then _ (safeSegThen_of_noOccIn
      (noOccIn_of_containsSeq_false hname)
      (show (' ' : Char) ∉ linkStem.data by decide))
      (head?_append_left (by decide)) ?_
    refine afterFirstOcc_skip _ (safeSeg_fixed (by decide)) ?_
    refine afterFirstOcc_skip_then _ (safeSegThen_of_noOccIn
      (noOccIn_of_containsSeq_false hsym)
      (show (')' : Char) ∉ linkStem.data by decide))
      (head?_append_left (by decide)) ?_
    refine afterFirstOcc_skip _ (safeSeg_fixed (by decide)) ?_
    refine afterFirstOcc_skip _ (safeSeg_no_h (intStr_ne_h rank)) ?_
    refine afterFirstOcc_skip _ (safeSeg_fixed (by decide)) ?_
    refine afterFirstOcc_skip _ (safeSeg_fixed (by decide)) ?_
    refine afterFirstOcc_skip _ (safeSeg_no_h (fmtFixed_ne_h 1 c24)) ?_
    refine afterFirstOcc_skip _ (safeSeg_fixed (by decide)) ?_
    refine afterFirstOcc_skip _ (safeSeg_no_h (fmtFixed_ne_h 1 c1h)) ?_
    refine afterFirstOcc_skip _ (safeSeg_fixed (by decide)) ?_
    refine afterFirstOcc_skip _ (safeSeg_fixed (by decide)) ?_
    refine afterFirstOcc_skip _ (safeSeg_no_h (fmtFixed_ne_h 1 outperf)) ?_
    refine afterFirstOcc_skip _ (safeSeg_fixed (by decide)) ?_
    refine afterFirstOcc_skip _ (safeSeg_fixed (by decide)) ?_
    refine afterFirstOcc_skip _ (safeSeg_no_h (fmt_int_ne_h vol)) ?_
    refine afterFirstOcc_skip _ (safeSeg_fixed (by decide)) ?_
    refine afterFirstOcc_skip _ (safeSeg_no_h (fmt_int_ne_h mcap)) ?_
    refine afterFirstOcc_skip _ (safeSeg_fixed (by decide)) ?_
    refine afterFirstOcc_skip _ (safeSeg_fixed (by decide)) ?_
    exact afterFirstOcc_self cid.data
  have hcid' : ∀ c ∈ cid.data, (!(c == '\n')) = true := by
    intro c hc
    have hne : c ≠ '\n' := fun h => hnl (h ▸ hc)
    simp [hne]
  simp only [parseCoinId, haft]
  rw [upToFirstOcc_of_noOccIn (noOccIn_of_containsSeq_false hcid),
      takeWhile_eq_self_of_all hcid', hstrip]

theorem parse_T2 (score : ℚ) (name sym cid : String) (rank : Int)
    (c24 c1h outperf vol mcap : ℚ)
    (hname : containsSeq name.data linkStem.data = false)
    (hsym : containsSeq sym.data linkStem.data = false)
    (hcid : containsSeq cid.data linkStem.data = false)
    (hnl : '\n' ∉ cid.data)
    (hstrip : pyStrip cid.data = cid.data) :
    parseCoinId (mkMsgT2 score name sym rank c24 c1h outperf vol mcap (linkStem ++ cid)) =
      some cid := by
  have haft : afterFirstOcc linkStem.data
      (mkMsgT2 score name sym rank c24 c1h outperf vol mcap (linkStem ++ cid)).data =
      some cid.data := by
    simp only [mkMsgT2, String.data_append, List.append_assoc]
    refine afterFirstOcc_skip _ (safeSeg_fixed (by decide)) ?_
    refine afterFirstOcc_skip _ (safeSeg_no_h (fmtFixed_ne_h 1 score)) ?_
    refine afterFirstOcc_skip _ (safeSeg_fixed (by decide)) ?_
    refine afterFirstOcc_skip _ (safeSeg_fixed (by decide)) ?_
    refine afterFirstOcc_skip_then _ (safeSegThen_of_noOccIn
      (noOccIn_of_containsSeq_false hname)
      (show (' ' : Char) ∉ linkStem.data by decide))
      (head?_append_left (by decide)) ?_
    refine afterFirstOcc_skip _ (safeSeg_fixed (by decide)) ?_
    refine afterFirstOcc_skip_then _ (safeSegThen_of_noOccIn
      (noOccIn_of_containsSeq_false hsym)
      (show (')' : Char) ∉ linkStem.data by decide))
      (head?_append_left (by decide)) ?_
    refine afterFirstOcc_skip _ (safeSeg_fixed (by decide)) ?_
    refine afterFirstOcc_skip _ (safeSeg_no_h (intStr_ne_h rank)) ?_
    refine afterFirstOcc_skip _ (safeSeg_fixed (by decide)) ?_
    refine afterFirstOcc_skip _ (safeSeg_fixed (by decide)) ?_
    refine afterFirstOcc_skip _ (safeSeg_no_h (fmtFixed_ne_h 1 c24)) ?_
    refine afterFirstOcc_skip _ (safeSeg_fixed (by decide)) ?_
    refine afterFirstOcc_skip _ (safeSeg_no_h (fmtFixed_ne_h 1 c1h)) ?_
    refine afterFirstOcc_skip _ (safeSeg_fixed (by decide)) ?_
    refine afterFirstOcc_skip _ (safeSeg_fixed (by decide)) ?_
    refine afterFirstOcc_skip _ (safeSeg_no_h (fmtFixed_ne_h 1 outperf)) ?_
    refine afterFirstOcc_skip _ (safeSeg_fixed (by decide)) ?_
    refine afterFirstOcc_skip _ (safeSeg_fixed (by decide)) ?_
    refine afterFirstOcc_skip _ (safeSeg_no_h (fmt_int_ne_h vol)) ?_
    refine afterFirstOcc_skip _ (safeSeg_fixed (by decide)) ?_
    refine afterFirstOcc_skip _ (safeSeg_no_h (fmt_int_ne_h mcap)) ?_
    refine afterFirstOcc_skip _ (safeSeg_fixed (by decide)) ?_
    refine afterFirstOcc_skip _ (safeSeg_fixed (by decide)) ?_
    exact afterFirstOcc_self cid.data
  have hcid' : ∀ c ∈ cid.data, (!(c == '\n')) = true := by
    intro c hc
    have hne : c ≠ '\n' := fun h => hnl (h ▸ hc)
    simp [hne]
  simp only [parseCoinId, haft]
  rw [upToFirstOcc_of_noOccIn (noOccIn_of_containsSeq_false hcid),
      takeWhile_eq_self_of_all hcid', hstrip]

theorem parse_T1 (score : ℚ) (name sym cid : String) (rank : Int) (t1c : T1Cand)
    (outperf c24 btc24 vol mcap : ℚ)
    (hname : containsSeq name.data linkStem.data = false)
    (hsym : containsSeq sym.data linkStem.data = false)
    (hcid : containsSeq cid.data linkStem.data = false)
    (hnl : '\n' ∉ cid.data)
    (hstrip : pyStrip cid.data = cid.data) :
    parseCoinId (mkMsgT1 score name sym rank t1c outperf c24 btc24 vol mcap
      (linkStem ++ cid)) = some cid := by
  have haft : afterFirstOcc linkStem.data
      (mkMsgT1 score name sym rank t1c outperf c24 btc24 vol mcap (linkStem ++ cid)).data =
      some cid.data := by
    simp only [mkMsgT1, String.data_append, List.append_assoc]
    refine afterFirstOcc_skip _ (safeSeg_fixed (by decide)) ?_
    refine afterFirstOcc_skip _ (safeSeg_no_h (fmtFixed_ne_h 1 score)) ?_
    refine afterFirstOcc_skip _ (safeSeg_fixed (by decide)) ?_
    refine afterFirstOcc_skip _ (safeSeg_no_h (confidence_label_ne_h score)) ?_
    refine afterFirstOcc_skip _ (safeSeg_fixed (by decide)) ?_
    refine afterFirstOcc_skip _ (safeSeg_fixed (by decide)) ?_
    refine afterFirstOcc_skip_then _ (safeSegThen_of_noOccIn
      (noOccIn_of_containsSeq_false hname)
      (show (' ' : Char) ∉ linkStem.data by decide))
      (head?_append_left (by decide)) ?_
    refine afterFirstOcc_skip _ (safeSeg_fixed (by decide)) ?_
    refine afterFirstOcc_skip_then _ (safeSegThen_of_noOccIn
      (noOccIn_of_containsSeq_false hsym)
      (show (')' : Char) ∉ linkStem.data by decide))
      (head?_append_left (by decide)) ?_
    refine afterFirstOcc_skip _ (safeSeg_fixed (by decide)) ?_
    refine afterFirstOcc_skip _ (safeSeg_no_h (intStr_ne_h rank)) ?_
    refine afterFirstOcc_skip _ (safeSeg_fixed (by decide)) ?_
    refine afterFirstOcc_skip _ (safeSeg_fixed (by decide)) ?_
    refine afterFirstOcc_skip _ (safeSeg_no_h (natStr_ne_h t1c.base_days)) ?_
    refine afterFirstOcc_skip _ (safeSeg_fixed (by decide)) ?_
    refine afterFirstOcc_skip _ (safeSeg_no_h (fmtFixed_ne_h 1 t1c.base_range_pct)) ?_
    refine afterFirstOcc_skip _ (safeSeg_fixed (by decide)) ?_
    refine afterFirstOcc_skip _ (safeSeg_no_h (fmtFixed_ne_h 1 t1c.stretch_pct)) ?_
    refine afterFirstOcc_skip _ (safeSeg_fixed (by decide)) ?_
    refine afterFirstOcc_skip _ (safeSeg_fixed (by decide)) ?_
    refine afterFirstOcc_skip _ (safeSeg_no_h (fmtFixed_ne_h 1 t1c.r6)) ?_
    refine afterFirstOcc_skip _ (safeSeg_fixed (by decide)) ?_
    refine afterFirstOcc_skip _ (safeSeg_no_h (fmtFixed_ne_h 1 t1c.r12)) ?_
    refine afterFirstOcc_skip _ (safeSeg_fixed (by decide)) ?_
    refine afterFirstOcc_skip _ (safeSeg_fixed (by decide)) ?_
    refine afterFirstOcc_skip _ (safeSeg_no_h (fmtFixed_ne_h 1 outperf)) ?_
    refine afterFirstOcc_skip _ (safeSeg_fixed (by decide)) ?_
    refine afterFirstOcc_skip _ (safeSeg_no_h (fmtFixed_ne_h 1 c24)) ?_
    refine afterFirstOcc_skip _ (safeSeg_fixed (by decide)) ?_
    refine afterFirstOcc_skip _ (safeSeg_no_h (fmtFixed_ne_h 1 btc24)) ?_
    refine afterFirstOcc_skip _ (safeSeg_fixed (by decide)) ?_
    refine afterFirstOcc_skip _ (safeSeg_fixed (by decide)) ?_
    refine afterFirstOcc_skip _ (safeSeg_no_h (fmtFixed_ne_h 0 t1c.green_ratio)) ?_
    refine afterFirstOcc_skip _ (safeSeg_fixed (by decide)) ?_
    refine afterFirstOcc_skip _ (safeSeg_no_h (intStr_ne_h PERSIST_WINDOW_MIN)) ?_
    refine afterFirstOcc_skip _ (safeSeg_fixed (by decide)) ?_
    refine afterFirstOcc_skip _ (safeSeg_fixed (by decide)) ?_
    refine afterFirstOcc_skip _ (safeSeg_no_h (fmt_int_ne_h vol)) ?_
    refine afterFirstOcc_skip _ (safeSeg_fixed (by decide)) ?_
    refine afterFirstOcc_skip _ (safeSeg_no_h (volRatioTxt_ne_h t1c.vol_ratio)) ?_
    refine afterFirstOcc_skip _ (safeSeg_fixed (by decide)) ?_
    refine afterFirstOcc_skip _ (safeSeg_no_h (volRatioTxt_ne_h t1c.spike_ratio)) ?_
    refine afterFirstOcc_skip _ (safeSeg_fixed (by decide)) ?_
    refine afterFirstOcc_skip _ (safeSeg_fixed (by decide)) ?_
    refine afterFirstOcc_skip _ (safeSeg_no_h (fmt_int_ne_h mcap)) ?_
    refine afterFirstOcc_skip _ (safeSeg_fixed (by decide)) ?_
    refine afterFirstOcc_skip _ (safeSeg_fixed (by decide)) ?_
    exact afterFirstOcc_self cid.data
  have hcid' : ∀ c ∈ cid.data, (!(c == '\n')) = true := by
    intro c hc
    have hne : c ≠ '\n' := fun h => hnl (h ▸ hc)
    simp [hne]
  simp only [parseCoinId, haft]
  rw [upToFirstOcc_of_noOccIn (noOccIn_of_containsSeq_false hcid),
      takeWhile_eq_self_of_all hcid', hstrip]

theorem yesno_ne_h (b : Bool) :
    ∀ c ∈ (if b = true then "YES" else "no" : String).data, c ≠ 'h' := by
  cases b <;> decide

theorem noOccIn_of_safeSeg {s : List Char} (h : SafeSeg s) :
    noOccIn linkStem.data s := by
  intro i
  by_cases hi : i < s.length
  · have := h [] i (by simpa using hi)
    simpa using this
  · rw [List.drop_eq_nil_of_le (by omega)]
    exact leadsWith_nil linkStem_ne_nil

theorem parse_T0 (score : ℚ) (name sym cid : String) (rank : Int) (t0c : T0Cand)
    (vol mcap : ℚ)
    (hname : containsSeq name.data linkStem.data = false)
    (hsym : containsSeq sym.data linkStem.data = false)
    (hcid : containsSeq cid.data linkStem.data = false)
    (hnl : '\n' ∉ cid.data)
    (hstrip : pyStrip cid.data = cid.data) :
    parseCoinId (mkMsgT0 score name sym rank t0c vol mcap (linkStem ++ cid)) =
      some cid := by
  have haft : afterFirstOcc linkStem.data
      (mkMsgT0 score name sym rank t0c vol mcap (linkStem ++ cid)).data =
      some (cid.data ++ (("\n" : String).data ++
        ("Note: Watchlist-only. No breakout requirement." : String).data)) := by
    simp only [mkMsgT0, String.data_append, List.append_assoc]
    refine afterFirstOcc_skip _ (safeSeg_fixed (by decide)) ?_
    refine afterFirstOcc_skip _ (safeSeg_no_h (fmtFixed_ne_h 1 score)) ?_
    refine afterFirstOcc_skip _ (safeSeg_fixed (by decide)) ?_
    refine afterFirstOcc_skip _ (safeSeg_fixed (by decide)) ?_
    refine afterFirstOcc_skip_then _ (safeSegThen_of_noOccIn
      (noOccIn_of_containsSeq_false hname)
      (show (' ' : Char) ∉ linkStem.data by decide))
      (head?_append_left (by decide)) ?_
    refine afterFirstOcc_skip _ (safeSeg_fixed (by decide)) ?_
    refine afterFirstOcc_skip_then _ (safeSegThen_of_noOccIn
      (noOccIn_of_containsSeq_false hsym)
      (show (')' : Char) ∉ linkStem.data by decide))
      (head?_append_left (by decide)) ?_
    refine afterFirstOcc_skip _ (safeSeg_fixed (by decide)) ?_
    refine afterFirstOcc_skip _ (safeSeg_no_h (intStr_ne_h rank)) ?_
    refine afterFirstOcc_skip _ (safeSeg_fixed (by decide)) ?_
    refine afterFirstOcc_skip _ (safeSeg_fixed (by decide)) ?_
    refine afterFirstOcc_skip _ (safeSeg_no_h (natStr_ne_h t0c.base_days)) ?_
    refine afterFirstOcc_skip _ (safeSeg_fixed (by decide)) ?_
    refine afterFirstOcc_skip _ (safeSeg_no_h (fmtFixed_ne_h 1 t0c.base_range_pct)) ?_
    refine afterFirstOcc_skip _ (safeSeg_fixed (by decide)) ?_
    refine afterFirstOcc_skip _ (safeSeg_no_h (fmtFixed_ne_h 1 t0c.dd_pct)) ?_
    refine afterFirstOcc_skip _ (safeSeg_fixed (by decide)) ?_
    refine afterFirstOcc_skip _ (safeSeg_fixed (by decide)) ?_
    refine afterFirstOcc_skip _ (safeSeg_no_h (fmtFixed_ne_h 1 t0c.rs_base)) ?_
    refine afterFirstOcc_skip _ (safeSeg_fixed (by decide)) ?_
    refine afterFirstOcc_skip _ (safeSeg_no_h (yesno_ne_h t0c.contracting)) ?_
    refine afterFirstOcc_skip _ (safeSeg_fixed (by decide)) ?_
    refine afterFirstOcc_skip _ (safeSeg_fixed (by decide)) ?_
    refine afterFirstOcc_skip _ (safeSeg_no_h (fmt_int_ne_h vol)) ?_
    refine afterFirstOcc_skip _ (safeSeg_fixed (by decide)) ?_
    refine afterFirstOcc_skip _ (safeSeg_no_h (fmt_int_ne_h mcap)) ?_
    refine afterFirstOcc_skip _ (safeSeg_fixed (by decide)) ?_
    refine afterFirstOcc_skip _ (safeSeg_fixed (by decide)) ?_
    exact afterFirstOcc_self _
  have hcid' : ∀ c ∈ cid.data, (!(c == '\n')) = true := by
    intro c hc
    have hne : c ≠ '\n' := fun h => hnl (h ▸ hc)
    simp [hne]
  have hnote : noOccIn linkStem.data (("\n" : String).data ++
      ("Note: Watchlist-only. No breakout requirement." : String).data) :=
    noOccIn_append (noOccIn_of_no_h (by decide))
      (show ("Note: Watchlist-only. No breakout requirement." : String).data.head? =
        some 'N' by decide)
      (by decide) (noOccIn_of_safeSeg (safeSeg_fixed (by decide)))
  have hup := upToFirstOcc_of_noOccIn
    (noOccIn_append (noOccIn_of_containsSeq_false hcid)
      (show (("\n" : String).data ++
        ("Note: Watchlist-only. No breakout requirement." : String).data).head? =
        some '\n' by decide)
      (show ('\n' : Char) ∉ linkStem.data by decide) hnote)
  have htw : (cid.data ++ (("\n" : String).data ++
      ("Note: Watchlist-only. No breakout requirement." : String).data)).takeWhile
        (fun c => !(c == '\n')) = cid.data :=
    takeWhile_append_stop hcid'
      (show (("\n" : String).data ++
        ("Note: Watchlist-only. No breakout requirement." : String).data).head? =
        some '\n' by decide)
      (by decide)
  simp only [parseCoinId, haft]
  rw [hup, htw, hstrip]

/-- Claim C9 (amended): for every rendered alert message of any tier,
provided the display name and symbol do not contain the coin-URL stem,
AND the asset id contains no newline, no leading or trailing whitespace,
and does not itself contain the URL stem, the id parsed back out of the
message equals the candidate's asset id, and the cooldown ledger entry
updated after sending is exactly the (tier, asset) pair of the alert. -/
theorem parse_roundtrip_amended
    (name sym cid : String) (rank : Int) (t0c : T0Cand) (t1c : T1Cand)
    (score c24 c1h outperf btc24 vol mcap : ℚ) (now : Int) (cds : Cooldowns)
    (hname : containsSeq name.data linkStem.data = false)
    (hsym : containsSeq sym.data linkStem.data = false)
    (hcid : containsSeq cid.data linkStem.data = false)
    (hnl : '\n' ∉ cid.data)
    (hstrip : pyStrip cid.data = cid.data) :
    parseCoinId (mkMsgT0 score name sym rank t0c vol mcap (linkStem ++ cid)) = some cid ∧
    parseCoinId (mkMsgT1 score name sym rank t1c outperf c24 btc24 vol mcap
      (linkStem ++ cid)) = some cid ∧
    parseCoinId (mkMsgT2 score name sym rank c24 c1h outperf vol mcap
      (linkStem ++ cid)) = some cid ∧
    parseCoinId (mkMsgT3 name sym rank c24 c1h outperf vol mcap
      (linkStem ++ cid)) = some cid ∧
    cooldownUpdate cds "t0" (mkMsgT0 score name sym rank t0c vol mcap
      (linkStem ++ cid)) now = { cds with t0 := setKV cds.t0 cid now } ∧
    cooldownUpdate cds "t1" (mkMsgT1 score name sym rank t1c outperf c24 btc24 vol mcap
      (linkStem ++ cid)) now = { cds with t1 := setKV cds.t1 cid now } ∧
    cooldownUpdate cds "t2" (mkMsgT2 score name sym rank c24 c1h outperf vol mcap
      (linkStem ++ cid)) now = { cds with t2 := setKV cds.t2 cid now } ∧
    cooldownUpdate cds "t3" (mkMsgT3 name sym rank c24 c1h outperf vol mcap
      (linkStem ++ cid)) now = { cds with t3 := setKV cds.t3 cid now } := by
  have h0 := parse_T0 score name sym cid rank t0c vol mcap hname hsym hcid hnl hstrip
  have h1 := parse_T1 score name sym cid rank t1c outperf c24 btc24 vol mcap
    hname hsym hcid hnl hstrip
  have h2 := parse_T2 score name sym cid rank c24 c1h outperf vol mcap
    hname hsym hcid hnl hstrip
  have h3 := parse_T3 name sym cid rank c24 c1h outperf vol mcap
    hname hsym hcid hnl hstrip
  refine ⟨h0, h1, h2, h3, ?_, ?_, ?_, ?_⟩
  · simp [cooldownUpdate, h0]
  · simp [cooldownUpdate, h1]
  · simp [cooldownUpdate, h2]
  · simp [cooldownUpdate, h3]

/-- Concrete instance of `parse_roundtrip_amended` at a well-formed
asset id. -/
theorem parse_roundtrip_amended_witness :
    parseCoinId (mkMsgT3 "Pepe" "PEPE" 7 20 2 20 60000000 1000000000
      (linkStem ++ "pepe")) = some "pepe" ∧
    cooldownUpdate ⟨[], [], [], []⟩ "t3" (mkMsgT3 "Pepe" "PEPE" 7 20 2 20 60000000
      1000000000 (linkStem ++ "pepe")) 999 =
      { Cooldowns.mk [] [] [] [] with t3 := setKV [] "pepe" 999 } := by
  have h := parse_roundtrip_amended "Pepe" "PEPE" "pepe" 7
    ⟨4, 5, 3, 2, true⟩ ⟨4, 5, 6, 7, 8, none, none, 70, 10⟩
    3 20 2 20 0 60000000 1000000000 999 ⟨[], [], [], []⟩
    (by decide) (by decide) (by decide) (by decide) (by decide)
  exact ⟨h.2.2.2.1, h.2.2.2.2.2.2.2⟩

/-- Claim C9 counterexample: an asset whose id contains a newline.  The
display name and symbol are clean (the claim's only proviso), the asset
fires Tier 3 and the alert is admitted, yet the ledger entry stamped
after sending is for `"abc"` — not the asset's id `"abc\ndef"` — because
the id is recovered by splitting the rendered message text. -/
def cexParseMkt : Market :=
  { id := some "abc\ndef", name := some "Test", symbol := some "tst",
    market_cap_rank := some 1, current_price := some 1,
    total_volume := some 60000000, market_cap := some 1000000000,
    c24 := some 20, c1h := some 2 }

theorem parse_roundtrip_cex :
    containsSeq ("Test" : String).data linkStem.data = false ∧
    containsSeq ("TST" : String).data linkStem.data = false ∧
    (runOnce ⟨[], ⟨[], [], [], []⟩, []⟩ [cexParseMkt] 1000000).1.cds.t3 =
      [("abc", 1000000)] := by
  refine ⟨by decide, by decide, by with_unfolding_all decide⟩

end Bot
